/-
Verification of the context-fingerprint-cache-dispatch completion pipeline
of the AI code-autocompletion extension.

The TypeScript sources are embedded shallowly:
  * completion_provider.ts (CompletionProvider): the CodeContext /
    Suggestion / SuggestionResponse data model, generateContextHash,
    the bounded suggestion cache with cleanupCache eviction,
    provideCompletionItems (modelled as an explicit two-phase state
    machine around the single network suspension point),
    convertToCompletionItems and formatSuggestionText;
  * api_client.ts (APIClient): getSuggestions failure handling and
    getErrorMessage classification;
  * statistics_manager.ts (StatisticsManager): the statistics counters
    and the rate queries.

Conventions of the embedding:
  * TypeScript string-literal union types (status, indent style, scope
    tags, suggestion kind) are modelled as String, exactly as in the
    dynamic language.
  * JavaScript numbers are modelled as Rat where fractional values occur
    (confidence, latencies) and as Nat for counters and sizes.
    Math.round x = Int.floor (x + 1/2) is implemented on the
    numerator/denominator pair so that it evaluates by kernel reduction;
    JavaScript evaluates these expressions in binary floating point,
    which agrees with exact rational arithmetic on all quantities the
    claims are about.
  * The MD5 digest comes from the Node crypto library, which is outside
    this repository; it is passed as an opaque String → String parameter.
    No claim depends on its definition, only on it being a function.
  * JS Map is modelled as an insertion-ordered association list:
    set of an existing key updates in place, set of a fresh key appends.
  * Strings are manipulated through their character lists; all helper
    functions are structurally recursive so that every definition
    evaluates by kernel reduction on concrete input.
-/
import Mathlib

set_option maxRecDepth 100000
set_option maxHeartbeats 4000000

/-! ## Data model (completion_provider.ts, interfaces) -/

/-- Cursor position, completion_provider.ts CodeContext.position. -/
structure CaretPos where
  line : Nat
  character : Nat
deriving DecidableEq, Repr

/-- Enclosing-function descriptor, CodeContext.functionContext. -/
structure FunctionContext where
  name : String
  parameters : List String
  returnType : Option String
deriving DecidableEq, Repr

/-- Enclosing-class descriptor, CodeContext.classContext. -/
structure ClassContext where
  name : String
  methods : List String
  properties : List String
deriving DecidableEq, Repr

/-- Variable binding, CodeContext.variables; scope is the TS string
union standing for local, global or parameter. -/
structure VarBinding where
  name : String
  type : String
  scope : String
deriving DecidableEq, Repr

/-- CodeContext of completion_provider.ts.  Optional TS fields are
Option; indentStyle holds the strings spaces or tabs. -/
structure CodeContext where
  currentLine : String
  filePath : Option String
  previousLines : List String
  position : CaretPos
  language : String
  functionContext : Option FunctionContext
  classContext : Option ClassContext
  imports : List String
  variableBindings : List VarBinding
  fileExtension : Option String
  indentStyle : Option String
  indentSize : Option Nat
  contextWindow : Option Nat
deriving DecidableEq, Repr

/-- Suggestion of completion_provider.ts.  confidence is a JS number in
the unit interval; replaceRange is the optional start/end pair. -/
structure Suggestion where
  text : String
  confidence : ℚ
  type : String
  description : Option String
  cursorOffset : Nat
  replaceRange : Option (Nat × Nat)
  languageSpecific : Option Bool
  formattingApplied : Option Bool
deriving DecidableEq, Repr

/-- SuggestionResponse.metadata of completion_provider.ts. -/
structure ResponseMetadata where
  processingTimeMs : ℚ
  modelVersion : String
  cacheHit : Bool
  contextHash : String
  languageDetected : Option String
  configUsed : Option String
  modelType : Option String
deriving DecidableEq, Repr

/-- SuggestionResponse of completion_provider.ts; status is the TS
string union success / partial / error. -/
structure SuggestionResponse where
  suggestions : List Suggestion
  metadata : ResponseMetadata
  status : String
  errorMessage : Option String
deriving DecidableEq, Repr

/-- LanguageConfig of completion_provider.ts. -/
structure LanguageConfig where
  maxTokens : Nat
  temperature : ℚ
  topP : ℚ
  contextWindow : Nat
  commentStyle : String
  indentStyle : String
  indentSize : Nat
  fileExtensions : List String
deriving DecidableEq, Repr

/-! ## JSON serialization used by generateContextHash

generateContextHash (completion_provider.ts lines 370-382) builds
JSON.stringify of a fixed projection of the context and digests it with
MD5.  The serializer below mirrors JSON.stringify on exactly the value
shapes that occur there: strings with escaping, string arrays, numbers,
null, and objects whose undefined-valued optional fields are omitted. -/

/-- Hexadecimal digit characters, for JSON control-character escapes. -/
def hexDigit : Nat → Char
  | 0 => '0' | 1 => '1' | 2 => '2' | 3 => '3' | 4 => '4'
  | 5 => '5' | 6 => '6' | 7 => '7' | 8 => '8' | 9 => '9'
  | 10 => 'a' | 11 => 'b' | 12 => 'c' | 13 => 'd' | 14 => 'e'
  | _ => 'f'

/-- JSON.stringify escaping of one character. -/
def escChar (c : Char) : List Char :=
  if c = '"' then ['\\', '"']
  else if c = '\\' then ['\\', '\\']
  else if c = '\n' then ['\\', 'n']
  else if c = '\r' then ['\\', 'r']
  else if c = '\t' then ['\\', 't']
  else if c = '\x08' then ['\\', 'b']
  else if c = '\x0c' then ['\\', 'f']
  else if c.val < 32 then
    ['\\', 'u', '0', '0', hexDigit (c.val.toNat / 16), hexDigit (c.val.toNat % 16)]
  else [c]

/-- JSON string literal for s, double quotes included. -/
def jsonStr (s : String) : List Char :=
  '"' :: (s.data.map escChar).flatten ++ ['"']

/-- Comma-join a list of already-serialized JSON values. -/
def jsonCommaSep : List (List Char) → List Char
  | [] => []
  | [x] => x
  | x :: xs => x ++ ',' :: jsonCommaSep xs

/-- JSON array of already-serialized elements. -/
def jsonArr (xs : List (List Char)) : List Char :=
  '[' :: jsonCommaSep xs ++ [']']

/-- JSON object from key/serialized-value pairs (keys are plain
identifiers, needing no escapes). -/
def jsonObj (fields : List (String × List Char)) : List Char :=
  '{' :: jsonCommaSep (fields.map fun kv => jsonStr kv.1 ++ ':' :: kv.2) ++ ['}']

/-- Digit characters for decimal rendering. -/
def dc : Nat → Char
  | 0 => '0' | 1 => '1' | 2 => '2' | 3 => '3' | 4 => '4'
  | 5 => '5' | 6 => '6' | 7 => '7' | 8 => '8' | 9 => '9'
  | _ => '?'

/-- Decimal digits of n, most significant first.  The fuel argument
only serves structural recursion; fuel = n + 1 always suffices. -/
def natDigits (fuel : Nat) (n : Nat) : List Char :=
  match fuel with
  | 0 => []
  | fuel + 1 => if n < 10 then [dc n] else natDigits fuel (n / 10) ++ [dc (n % 10)]

/-- JavaScript String(i) for an integer-valued number. -/
def intStr (i : Int) : List Char :=
  if i < 0 then '-' :: natDigits (i.natAbs + 1) i.natAbs
  else natDigits (i.toNat + 1) i.toNat

/-- JSON serialization of the optional enclosing-function descriptor;
a TS null serializes as null, an undefined returnType is omitted. -/
def functionContextJson : Option FunctionContext → List Char
  | none => ['n', 'u', 'l', 'l']
  | some fc =>
    jsonObj ([("name", jsonStr fc.name),
              ("parameters", jsonArr (fc.parameters.map jsonStr))] ++
             (match fc.returnType with
              | none => []
              | some rt => [("returnType", jsonStr rt)]))

/-- JSON serialization of the optional enclosing-class descriptor. -/
def classContextJson : Option ClassContext → List Char
  | none => ['n', 'u', 'l', 'l']
  | some cc =>
    jsonObj [("name", jsonStr cc.name),
             ("methods", jsonArr (cc.methods.map jsonStr)),
             ("properties", jsonArr (cc.properties.map jsonStr))]

/-- JavaScript array.slice(-n): the last n elements (all of them when
the array is shorter). -/
def lastN (n : Nat) (l : List String) : List String :=
  l.drop (l.length - n)

/-- The serialized projection JSON.stringify builds inside
generateContextHash (completion_provider.ts lines 371-380): currentLine,
the last 10 previous lines, language, functionContext, classContext,
fileExtension, indentStyle, indentSize, in source order.  Optional
fields that are undefined are omitted, exactly as JSON.stringify does. -/
def contextString (context : CodeContext) : String :=
  String.mk (jsonObj
    ([("currentLine", jsonStr context.currentLine),
      ("previousLines", jsonArr ((lastN 10 context.previousLines).map jsonStr)),
      ("language", jsonStr context.language),
      ("functionContext", functionContextJson context.functionContext),
      ("classContext", classContextJson context.classContext)] ++
     (match context.fileExtension with
      | none => []
      | some fe => [("fileExtension", jsonStr fe)]) ++
     (match context.indentStyle with
      | none => []
      | some is => [("indentStyle", jsonStr is)]) ++
     (match context.indentSize with
      | none => []
      | some n => [("indentSize", intStr n)])))

/-- generateContextHash of completion_provider.ts: the MD5 digest of the
serialized projection.  md5 is Node crypto, opaque here. -/
def generateContextHash (md5 : String → String) (context : CodeContext) : String :=
  md5 (contextString context)

/-! ## Claim C1: fingerprint determinism -/

/-- C1.  Two contexts that agree on the projected field set (current
line, last 10 previous lines, language, function context, class context,
file extension, indent style, indent size) receive the same cache key
from generateContextHash, whatever their cursor position, imports,
variables, file path or context window are. -/
theorem c1_fingerprint_determinism (md5 : String → String) (a b : CodeContext)
    (h1 : a.currentLine = b.currentLine)
    (h2 : lastN 10 a.previousLines = lastN 10 b.previousLines)
    (h3 : a.language = b.language)
    (h4 : a.functionContext = b.functionContext)
    (h5 : a.classContext = b.classContext)
    (h6 : a.fileExtension = b.fileExtension)
    (h7 : a.indentStyle = b.indentStyle)
    (h8 : a.indentSize = b.indentSize) :
    generateContextHash md5 a = generateContextHash md5 b := by
  unfold generateContextHash contextString
  rw [h1, h2, h3, h4, h5, h6, h7, h8]

/-- Concrete context: inside a python function, cursor at line 14. -/
def ctxA : CodeContext :=
  { currentLine := "    return "
    filePath := some "/home/u/fib.py"
    previousLines := ["def fibonacci(n):", "    if n <= 1:", "        return n"]
    position := { line := 14, character := 11 }
    language := "python"
    functionContext := some { name := "fibonacci", parameters := ["n"], returnType := none }
    classContext := none
    imports := ["import math"]
    variableBindings := [{ name := "n", type := "number", scope := "parameter" }]
    fileExtension := some ".py"
    indentStyle := some "spaces"
    indentSize := some 4
    contextWindow := some 2048 }

/-- The same projected fields as ctxA, but another cursor position,
different imports, variables, file path and context window. -/
def ctxB : CodeContext :=
  { ctxA with
    filePath := some "/tmp/other.py"
    position := { line := 2, character := 11 }
    imports := []
    variableBindings := []
    contextWindow := some 1024 }

/-- Witness for C1 at the concrete pair ctxA / ctxB. -/
theorem c1_witness : generateContextHash id ctxA = generateContextHash id ctxB :=
  c1_fingerprint_determinism id ctxA ctxB rfl rfl rfl rfl rfl rfl rfl rfl

/-! ## The suggestion cache (completion_provider.ts, cache field)

The provider stores responses in a JS Map keyed by the context hash.
A JS Map iterates in insertion order; set on an existing key updates the
value in place keeping the original position, set on a fresh key
appends.  The Map is modelled as an association list in insertion
order. -/

/-- The provider cache: context hash to cached response, in insertion
order. -/
abbrev SuggestionCache := List (String × SuggestionResponse)

/-- JS Map.get. -/
def mapGet (k : String) : SuggestionCache → Option SuggestionResponse
  | [] => none
  | (k', v) :: rest => if k = k' then some v else mapGet k rest

/-- JS Map.set: update in place when the key exists (keeping its
insertion position), append otherwise. -/
def mapSet (m : SuggestionCache) (k : String) (v : SuggestionResponse) : SuggestionCache :=
  match mapGet k m with
  | some _ => m.map fun p => if p.1 = k then (k, v) else p
  | none => m ++ [(k, v)]

/-- JS Map.delete. -/
def mapDelete (m : SuggestionCache) (k : String) : SuggestionCache :=
  m.filter fun p => decide (p.1 ≠ k)

/-- JS Map.keys in insertion order. -/
def cacheKeys (m : SuggestionCache) : List String := m.map Prod.fst

/-- cleanupCache of completion_provider.ts (lines 384-390): when the
cache holds more than 100 entries, delete the first 50 keys in
insertion order. -/
def cleanupCache (m : SuggestionCache) : SuggestionCache :=
  if 100 < m.length then
    let keysToDelete := (cacheKeys m).take 50
    keysToDelete.foldl (fun acc k => mapDelete acc k) m
  else m

/-- One completed cache insertion as the pipeline performs it on a
successful dispatch: cache.set followed by cleanupCache
(completion_provider.ts lines 234-235). -/
def cacheInsert (m : SuggestionCache) (k : String) (v : SuggestionResponse) : SuggestionCache :=
  cleanupCache (mapSet m k v)

/-! ### Cache lemmas -/

theorem mapGet_eq_none_iff (k : String) (m : SuggestionCache) :
    mapGet k m = none ↔ k ∉ cacheKeys m := by
  induction m with
  | nil => simp [mapGet, cacheKeys]
  | cons p rest ih =>
    obtain ⟨k', v⟩ := p
    by_cases h : k = k' <;> simp [mapGet, cacheKeys, h] at ih ⊢
    exact ih

theorem cacheKeys_mapSet (m : SuggestionCache) (k : String) (v : SuggestionResponse) :
    cacheKeys (mapSet m k v) =
      if mapGet k m = none then cacheKeys m ++ [k] else cacheKeys m := by
  unfold mapSet
  cases hg : mapGet k m with
  | none => simp [cacheKeys]
  | some w =>
    have hkeys : ∀ l : SuggestionCache,
        List.map Prod.fst (l.map fun p => if p.1 = k then (k, v) else p) =
          List.map Prod.fst l := by
      intro l
      induction l with
      | nil => rfl
      | cons p rest ih =>
        simp only [List.map_cons, ih]
        by_cases h : p.1 = k <;> simp [h]
    simp only [cacheKeys]
    rw [if_neg (by simp [hg])]
    exact hkeys m

theorem length_mapSet (m : SuggestionCache) (k : String) (v : SuggestionResponse) :
    (mapSet m k v).length =
      if mapGet k m = none then m.length + 1 else m.length := by
  unfold mapSet
  cases hg : mapGet k m <;> simp

theorem nodup_cacheKeys_mapSet (m : SuggestionCache) (k : String) (v : SuggestionResponse)
    (h : (cacheKeys m).Nodup) : (cacheKeys (mapSet m k v)).Nodup := by
  rw [cacheKeys_mapSet]
  by_cases hg : mapGet k m = none
  · rw [if_pos hg]
    rw [List.nodup_append]
    refine ⟨h, List.nodup_singleton k, ?_⟩
    intro a ha hb
    simp only [List.mem_singleton] at hb
    exact ((mapGet_eq_none_iff k m).mp hg) (hb ▸ ha)
  · rw [if_neg hg]
    exact h

theorem mapDelete_of_not_mem (m : SuggestionCache) (k : String)
    (h : k ∉ cacheKeys m) : mapDelete m k = m := by
  rw [mapDelete, List.filter_eq_self]
  intro p hp
  simp only [decide_eq_true_eq]
  intro hk
  exact h (hk ▸ List.mem_map_of_mem Prod.fst hp)

theorem foldl_mapDelete_take (m : SuggestionCache) (n : Nat)
    (hnd : (cacheKeys m).Nodup) :
    ((cacheKeys m).take n).foldl (fun acc k => mapDelete acc k) m = m.drop n := by
  induction m generalizing n with
  | nil => simp [cacheKeys]
  | cons p rest ih =>
    cases n with
    | zero => simp
    | succ n' =>
      obtain ⟨k, v⟩ := p
      simp only [cacheKeys, List.map_cons, List.take_succ_cons, List.foldl_cons,
        List.drop_succ_cons]
      simp only [cacheKeys, List.map_cons, List.nodup_cons] at hnd
      have hdel : mapDelete ((k, v) :: rest) k = rest := by
        have : mapDelete rest k = rest := mapDelete_of_not_mem rest k hnd.1
        simpa [mapDelete, List.filter_cons] using this
      rw [hdel]
      exact ih n' hnd.2

theorem cleanupCache_of_le (m : SuggestionCache) (h : m.length ≤ 100) :
    cleanupCache m = m := by
  unfold cleanupCache
  rw [if_neg (by omega)]

theorem cleanupCache_of_101 (m : SuggestionCache)
    (hnd : (cacheKeys m).Nodup) (h : m.length = 101) :
    cleanupCache m = m.drop 50 := by
  unfold cleanupCache
  rw [if_pos (by omega)]
  exact foldl_mapDelete_take m 50 hnd

/-- Invariant carried through any sequence of insertions: bounded size
and no duplicate keys. -/
def CacheOk (m : SuggestionCache) : Prop :=
  m.length ≤ 100 ∧ (cacheKeys m).Nodup

theorem cacheInsert_preserves_ok (m : SuggestionCache) (k : String)
    (v : SuggestionResponse) (h : CacheOk m) : CacheOk (cacheInsert m k v) := by
  obtain ⟨hlen, hnd⟩ := h
  have hnd' : (cacheKeys (mapSet m k v)).Nodup := nodup_cacheKeys_mapSet m k v hnd
  have hlen' : (mapSet m k v).length ≤ 101 := by
    rw [length_mapSet]
    split <;> omega
  unfold cacheInsert
  rcases Nat.lt_or_ge 100 (mapSet m k v).length with hgt | hle
  · have h101 : (mapSet m k v).length = 101 := by omega
    rw [cleanupCache_of_101 _ hnd' h101]
    constructor
    · simp [h101]
    · have : cacheKeys ((mapSet m k v).drop 50) = (cacheKeys (mapSet m k v)).drop 50 := by
        simp [cacheKeys, List.map_drop]
      rw [this]
      exact hnd'.sublist (List.drop_sublist 50 _)
  · rw [cleanupCache_of_le _ hle]
    exact ⟨hle, hnd'⟩

theorem foldl_cacheInsert_ok (ops : List (String × SuggestionResponse))
    (m : SuggestionCache) (h : CacheOk m) :
    CacheOk (ops.foldl (fun acc kv => cacheInsert acc kv.1 kv.2) m) := by
  induction ops generalizing m with
  | nil => exact h
  | cons kv rest ih =>
    exact ih _ (cacheInsert_preserves_ok m kv.1 kv.2 h)

/-! ## Claim C2: the cache never exceeds 100 entries -/

/-- C2.  Starting from the empty cache, after any sequence of completed
insertions (cache.set followed by cleanupCache, as the pipeline performs
them on successful dispatches) the entry count is at most the configured
maximum of 100. -/
theorem c2_cache_bound (ops : List (String × SuggestionResponse)) :
    (ops.foldl (fun acc kv => cacheInsert acc kv.1 kv.2) []).length ≤ 100 :=
  (foldl_cacheInsert_ok ops [] ⟨by simp, by simp [cacheKeys]⟩).1

/-! ## Claim C3: the eviction step removes exactly the 50 oldest entries -/

/-- C3.  Inserting a fresh key into a 100-entry cache makes 101 entries;
the eviction step then removes exactly the 50 oldest-inserted entries,
leaving the 51 later-inserted ones, the newly inserted entry (still
retrievable) among them. -/
theorem c3_eviction (m : SuggestionCache) (k : String) (v : SuggestionResponse)
    (hlen : m.length = 100) (hnd : (cacheKeys m).Nodup)
    (hfresh : mapGet k m = none) :
    cacheInsert m k v = m.drop 50 ++ [(k, v)]
    ∧ (mapSet m k v).length = 101
    ∧ (cacheInsert m k v).length = 51
    ∧ mapGet k (cacheInsert m k v) = some v
    ∧ cacheInsert m k v = (mapSet m k v).drop 50 := by
  have hset : mapSet m k v = m ++ [(k, v)] := by
    unfold mapSet
    rw [hfresh]
  have hlen' : (mapSet m k v).length = 101 := by
    simp [hset, hlen]
  have hnd' : (cacheKeys (mapSet m k v)).Nodup := nodup_cacheKeys_mapSet m k v hnd
  have hdrop : cacheInsert m k v = (mapSet m k v).drop 50 :=
    cleanupCache_of_101 _ hnd' hlen'
  have hsplit : cacheInsert m k v = m.drop 50 ++ [(k, v)] := by
    rw [hdrop, hset, List.drop_append_of_le_length (by omega)]
  refine ⟨hsplit, hlen', ?_, ?_, hdrop⟩
  · rw [hdrop]
    simp [hlen']
  · rw [hsplit]
    have hnotmem : k ∉ cacheKeys (m.drop 50) := by
      intro hmem
      have : k ∈ cacheKeys m := by
        have := (List.drop_sublist 50 m).map Prod.fst
        exact this.mem hmem
      exact ((mapGet_eq_none_iff k m).mp hfresh) this
    have happ : ∀ l l' : SuggestionCache, k ∉ cacheKeys l →
        mapGet k (l ++ l') = mapGet k l' := by
      intro l
      induction l with
      | nil => intro l' _; rfl
      | cons p rest ih =>
        intro l' hk
        simp only [cacheKeys, List.map_cons, List.mem_cons] at hk
        push_neg at hk
        simp only [List.cons_append, mapGet, if_neg hk.1]
        exact ih l' hk.2
    rw [happ _ _ hnotmem]
    simp [mapGet]

/-- A minimal successful response used by concrete scenarios. -/
def demoResp : SuggestionResponse :=
  { suggestions := []
    metadata :=
      { processingTimeMs := 0, modelVersion := "v1", cacheHit := false,
        contextHash := "", languageDetected := none, configUsed := none,
        modelType := none }
    status := "success"
    errorMessage := none }

/-- A 100-entry cache with distinct decimal keys, for the C3 witness. -/
def demoCache : SuggestionCache :=
  (List.range 100).map fun i => (String.mk (natDigits (i + 1) i), demoResp)

/-- Witness for C3 at a concrete 100-entry cache and a fresh key. -/
theorem c3_witness :
    cacheInsert demoCache "new" demoResp = demoCache.drop 50 ++ [("new", demoResp)] :=
  (c3_eviction demoCache "new" demoResp (by decide) (by decide) (by decide)).1

/-! ## Statistics (statistics_manager.ts)

The StatisticsManager keeps global counters, a bounded rolling window of
response times, and per-language / per-day aggregates.  TS object maps
are modelled as association lists in insertion order. -/

/-- Per-language aggregate, CompletionStats.languageStats values. -/
structure LangStats where
  requests : Nat
  suggestions : Nat
  accepted : Nat
  avgResponseTime : ℚ
deriving DecidableEq, Repr

/-- Per-day aggregate, CompletionStats.dailyStats values. -/
structure DayStats where
  requests : Nat
  accepted : Nat
deriving DecidableEq, Repr

/-- CompletionStats of statistics_manager.ts. -/
structure CompletionStats where
  totalRequests : Nat
  totalSuggestions : Nat
  acceptedSuggestions : Nat
  cacheHits : Nat
  averageResponseTime : ℚ
  errorCount : Nat
  languageStats : List (String × LangStats)
  dailyStats : List (String × DayStats)
  sessionStartTime : Nat
deriving DecidableEq, Repr

/-- StatisticsManager instance state: the stats aggregate plus the
rolling responseTimes window (maxResponseTimeHistory = 100). -/
structure StatsManagerState where
  stats : CompletionStats
  responseTimes : List ℚ
deriving DecidableEq, Repr

/-- Generic association-list read, modelling JS object property get. -/
def assocGet {β : Type} (k : String) : List (String × β) → Option β
  | [] => none
  | (k', v) :: rest => if k = k' then some v else assocGet k rest

/-- Generic association-list write: update in place when the key
exists, append otherwise (JS property creation keeps insertion order). -/
def assocSet {β : Type} (k : String) (v : β) (l : List (String × β)) :
    List (String × β) :=
  match assocGet k l with
  | some _ => l.map fun p => if p.1 = k then (k, v) else p
  | none => l ++ [(k, v)]

/-- The zero-initialized statistics of loadStatistics. -/
def initialStats (now : Nat) : CompletionStats :=
  { totalRequests := 0, totalSuggestions := 0, acceptedSuggestions := 0,
    cacheHits := 0, averageResponseTime := 0, errorCount := 0,
    languageStats := [], dailyStats := [], sessionStartTime := now }

/-- Fresh StatisticsManager state. -/
def initialStatsState : StatsManagerState :=
  { stats := initialStats 0, responseTimes := [] }

/-- recordCompletion of statistics_manager.ts (lines 63-108): bump the
global counters, push the latency into the bounded window (oldest
shifted out beyond 100), recompute the moving average, and update the
lazily created per-language and per-day aggregates. -/
def recordCompletion (s : StatsManagerState) (language : String)
    (suggestionCount : Nat) (responseTime : ℚ) (cacheHit : Bool)
    (today : String) : StatsManagerState :=
  let stats1 :=
    { s.stats with
      totalRequests := s.stats.totalRequests + 1
      totalSuggestions := s.stats.totalSuggestions + suggestionCount
      cacheHits := if cacheHit then s.stats.cacheHits + 1 else s.stats.cacheHits }
  let pushed := s.responseTimes ++ [responseTime]
  let rts := if 100 < pushed.length then pushed.drop 1 else pushed
  let stats2 :=
    { stats1 with
      averageResponseTime := (rts.foldl (· + ·) 0) / (rts.length : ℚ) }
  let lang0 :=
    match assocGet language stats2.languageStats with
    | some ls => ls
    | none => { requests := 0, suggestions := 0, accepted := 0, avgResponseTime := 0 }
  let lang1 : LangStats :=
    { requests := lang0.requests + 1
      suggestions := lang0.suggestions + suggestionCount
      accepted := lang0.accepted
      avgResponseTime :=
        ((lang0.avgResponseTime * (lang0.requests : ℚ)) + responseTime) /
          ((lang0.requests : ℚ) + 1) }
  let stats3 :=
    { stats2 with languageStats := assocSet language lang1 stats2.languageStats }
  let day0 :=
    match assocGet today stats3.dailyStats with
    | some d => d
    | none => { requests := 0, accepted := 0 }
  let day1 : DayStats := { day0 with requests := day0.requests + 1 }
  { stats := { stats3 with dailyStats := assocSet today day1 stats3.dailyStats }
    responseTimes := rts }

/-- recordAcceptance of statistics_manager.ts (lines 110-121): bump the
global counter and, only where the aggregates already exist, the
per-language and per-day accepted counts. -/
def recordAcceptance (s : StatsManagerState) (language : String)
    (today : String) : StatsManagerState :=
  let stats1 :=
    { s.stats with acceptedSuggestions := s.stats.acceptedSuggestions + 1 }
  let stats2 :=
    match assocGet language stats1.languageStats with
    | some ls =>
      { stats1 with
        languageStats :=
          assocSet language { ls with accepted := ls.accepted + 1 } stats1.languageStats }
    | none => stats1
  let stats3 :=
    match assocGet today stats2.dailyStats with
    | some d =>
      { stats2 with
        dailyStats := assocSet today { d with accepted := d.accepted + 1 } stats2.dailyStats }
    | none => stats2
  { s with stats := stats3 }

/-- recordCacheHit of statistics_manager.ts. -/
def recordCacheHit (s : StatsManagerState) : StatsManagerState :=
  { s with stats := { s.stats with cacheHits := s.stats.cacheHits + 1 } }

/-- recordError of statistics_manager.ts; the error kind is accepted
and ignored, as in the source. -/
def recordError (s : StatsManagerState) (_errorType : String) : StatsManagerState :=
  { s with stats := { s.stats with errorCount := s.stats.errorCount + 1 } }

/-- getAcceptanceRate of statistics_manager.ts (lines 136-141). -/
def getAcceptanceRate (s : StatsManagerState) : ℚ :=
  if s.stats.totalSuggestions = 0 then 0
  else ((s.stats.acceptedSuggestions : ℚ) / (s.stats.totalSuggestions : ℚ)) * 100

/-- getCacheHitRate of statistics_manager.ts (lines 143-148). -/
def getCacheHitRate (s : StatsManagerState) : ℚ :=
  if s.stats.totalRequests = 0 then 0
  else ((s.stats.cacheHits : ℚ) / (s.stats.totalRequests : ℚ)) * 100

/-! ## Claim C10: division-safe statistics rate queries -/

/-- C10.  For every statistics state the rate queries are division-safe
and total: getAcceptanceRate is 0 at zero totalSuggestions and otherwise
the acceptance percentage; getCacheHitRate is 0 at zero totalRequests
and otherwise the cache-hit percentage. -/
theorem c10_rate_queries (s : StatsManagerState) :
    (s.stats.totalSuggestions = 0 → getAcceptanceRate s = 0)
    ∧ (s.stats.totalSuggestions ≠ 0 →
        getAcceptanceRate s =
          ((s.stats.acceptedSuggestions : ℚ) / (s.stats.totalSuggestions : ℚ)) * 100)
    ∧ (s.stats.totalRequests = 0 → getCacheHitRate s = 0)
    ∧ (s.stats.totalRequests ≠ 0 →
        getCacheHitRate s =
          ((s.stats.cacheHits : ℚ) / (s.stats.totalRequests : ℚ)) * 100) := by
  refine ⟨fun h => ?_, fun h => ?_, fun h => ?_, fun h => ?_⟩ <;>
    simp [getAcceptanceRate, getCacheHitRate, h]

/-- Witness for C10 at the freshly initialized state and at a state
with one recorded completion. -/
theorem c10_witness :
    getAcceptanceRate initialStatsState = 0 ∧ getCacheHitRate initialStatsState = 0 :=
  ⟨(c10_rate_queries initialStatsState).1 rfl,
   (c10_rate_queries initialStatsState).2.2.1 rfl⟩

/-! ## The request dispatcher (api_client.ts)

getSuggestions performs the network call inside a try/catch.  The
environment behavior of one dispatch is an explicit event: either a
2xx reply carrying a JSON body, or an axios rejection (no response,
non-2xx status, or timeout).  The body of a 2xx reply is a dynamic
JSON value, validated structurally by isValidSuggestionResponse; a
validation failure raises inside the try block and is caught by the
same catch as transport failures, exactly as in the source.  The
embedding is a total function, so the dispatcher never throws. -/

/-- Dynamic JSON value, the type of a parsed axios response body. -/
inductive Json where
  | null
  | bool (b : Bool)
  | num (q : ℚ)
  | str (s : String)
  | arr (elems : List Json)
  | obj (fields : List (String × Json))

/-- JS property access: field of an object, undefined (null) elsewhere. -/
def Json.get (j : Json) (k : String) : Json :=
  match j with
  | .obj fields =>
    match assocGet k fields with
    | some v => v
    | none => .null
  | _ => .null

/-- JS truthiness. -/
def Json.truthy : Json → Bool
  | .null => false
  | .bool b => b
  | .num q => decide (q ≠ 0)
  | .str s => decide (s ≠ "")
  | .arr _ => true
  | .obj _ => true

/-- Array.isArray. -/
def Json.isArr : Json → Bool
  | .arr _ => true
  | _ => false

/-- typeof x === number. -/
def Json.isNum : Json → Bool
  | .num _ => true
  | _ => false

/-- typeof x === string. -/
def Json.isStr : Json → Bool
  | .str _ => true
  | _ => false

/-- typeof x === boolean. -/
def Json.isBool : Json → Bool
  | .bool _ => true
  | _ => false

/-- isValidSuggestionResponse of api_client.ts (lines 254-264): data is
truthy, suggestions is an array, metadata is truthy with numeric
processingTimeMs, string modelVersion, boolean cacheHit, and status is
a string. -/
def isValidSuggestionResponse (data : Json) : Bool :=
  data.truthy
  && (data.get "suggestions").isArr
  && (data.get "metadata").truthy
  && ((data.get "metadata").get "processingTimeMs").isNum
  && ((data.get "metadata").get "modelVersion").isStr
  && ((data.get "metadata").get "cacheHit").isBool
  && (data.get "status").isStr

/-- String field with TS-cast default. -/
def Json.asStr (j : Json) (d : String) : String :=
  match j with
  | .str s => s
  | _ => d

/-- Optional string field. -/
def Json.asOptStr (j : Json) : Option String :=
  match j with
  | .str s => some s
  | _ => none

/-- Numeric field with default. -/
def Json.asNum (j : Json) (d : ℚ) : ℚ :=
  match j with
  | .num q => q
  | _ => d

/-- Boolean field with default. -/
def Json.asBool (j : Json) (d : Bool) : Bool :=
  match j with
  | .bool b => b
  | _ => d

/-- Nonnegative integer field with default. -/
def Json.asNat (j : Json) (d : Nat) : Nat :=
  match j with
  | .num q => q.num.toNat
  | _ => d

/-- Typed view of one element of the suggestions array.  TypeScript
performs no per-element conversion (the parsed object is cast
structurally); this realizes that cast on a dynamic value, fields the
value lacks becoming defaults. -/
def decodeSuggestion (j : Json) : Suggestion :=
  { text := (j.get "text").asStr ""
    confidence := (j.get "confidence").asNum 0
    type := (j.get "type").asStr ""
    description := (j.get "description").asOptStr
    cursorOffset := (j.get "cursorOffset").asNat 0
    replaceRange :=
      match j.get "replaceRange" with
      | .obj _ =>
        some (((j.get "replaceRange").get "start").asNat 0,
              ((j.get "replaceRange").get "end").asNat 0)
      | _ => none
    languageSpecific :=
      match j.get "languageSpecific" with
      | .bool b => some b
      | _ => none
    formattingApplied :=
      match j.get "formattingApplied" with
      | .bool b => some b
      | _ => none }

/-- Typed view of a validated response body, with the two metadata
fields the client overwrites after validation (api_client.ts lines
100-102): processingTimeMs from the measured wall time and
languageDetected from the detected language. -/
def decodeResponse (data : Json) (processingTime : ℚ) (language : String) :
    SuggestionResponse :=
  { suggestions :=
      match data.get "suggestions" with
      | .arr xs => xs.map decodeSuggestion
      | _ => []
    metadata :=
      { processingTimeMs := processingTime
        modelVersion := ((data.get "metadata").get "modelVersion").asStr ""
        cacheHit := ((data.get "metadata").get "cacheHit").asBool false
        contextHash := ((data.get "metadata").get "contextHash").asStr ""
        languageDetected := some language
        configUsed := ((data.get "metadata").get "configUsed").asOptStr
        modelType := ((data.get "metadata").get "modelType").asOptStr }
    status := (data.get "status").asStr ""
    errorMessage := (data.get "errorMessage").asOptStr }

/-- The response attached to an axios rejection for a non-2xx reply. -/
structure ErrorResponseInfo where
  status : Nat
  statusText : String
  dataMessage : Option String
deriving DecidableEq, Repr

/-- An axios rejection as getErrorMessage inspects it: an optional
response (present on non-2xx), the request flag (the request went out
but nothing came back), an optional error code, and the message. -/
structure AxiosError where
  response : Option ErrorResponseInfo
  hasRequest : Bool
  code : Option String
  message : String
deriving DecidableEq, Repr

/-- The error thrown by `throw new Error(msg)` inside the try block:
no response, no request marker, no code. -/
def thrownError (msg : String) : AxiosError :=
  { response := none, hasRequest := false, code := none, message := msg }

/-- ASCII lower-casing of one character (String.prototype.toLowerCase
on the identifiers that occur here). -/
def toLowerChar (c : Char) : Char :=
  if 'A' ≤ c ∧ c ≤ 'Z' then Char.ofNat (c.toNat + 32) else c

/-- JS toLowerCase. -/
def jsToLower (s : String) : String := String.mk (s.data.map toLowerChar)

/-- JS String.prototype.split with a one-character separator. -/
def splitCh (sep : Char) : List Char → List (List Char)
  | [] => [[]]
  | c :: cs =>
    if c = sep then [] :: splitCh sep cs
    else
      match splitCh sep cs with
      | [] => [[c]]
      | l :: ls => (c :: l) :: ls

/-- The file-extension to language table of detectLanguage. -/
def extLangMap : List (String × String) :=
  [("py", "python"), ("js", "javascript"), ("ts", "typescript"),
   ("jsx", "javascript"), ("tsx", "typescript"), ("java", "java"),
   ("cpp", "cpp"), ("cc", "cpp"), ("cxx", "cpp"), ("c", "c"),
   ("cs", "c#"), ("go", "go"), ("rs", "rust"), ("php", "php"),
   ("rb", "ruby"), ("swift", "swift"), ("kt", "kotlin"),
   ("scala", "scala"), ("html", "html"), ("css", "css"),
   ("sql", "sql"), ("sh", "bash"), ("ps1", "powershell")]

/-- detectLanguage of api_client.ts (lines 201-243): the context
language lower-cased when truthy, else a lookup of the lower-cased last
dot-separated component of the file path, else unknown. -/
def detectLanguage (context : CodeContext) : String :=
  if context.language ≠ "" then jsToLower context.language
  else
    match context.filePath with
    | some fp =>
      match (splitCh '.' fp.data).getLast? with
      | some extChars =>
        let ext := jsToLower (String.mk extChars)
        if ext ≠ "" then
          match assocGet ext extLangMap with
          | some lang => lang
          | none => "unknown"
        else "unknown"
      | none => "unknown"
    | none => "unknown"

/-- getErrorMessage of api_client.ts (lines 266-280): a response means
a server error carrying the status code; otherwise a request that got
no reply; otherwise the ECONNABORTED timeout; otherwise the generic
message.  The inner template falls back from data.message to statusText
through JS truthiness. -/
def getErrorMessage (error : AxiosError) : String :=
  match error.response with
  | some r =>
    let detail :=
      match r.dataMessage with
      | some m => if m = "" then r.statusText else m
      | none => r.statusText
    "Server error: " ++ String.mk (natDigits (r.status + 1) r.status) ++ " - " ++ detail
  | none =>
    if error.hasRequest then
      "No response from server. Please check your connection and API URL."
    else if error.code = some "ECONNABORTED" then
      "Request timeout. The AI service is taking too long to respond."
    else
      "Request failed: " ++ error.message

/-- One dispatch as the environment resolves it: a 2xx reply carrying a
JSON body and a measured wall time, or an axios rejection. -/
inductive DispatchEvent where
  | ok (data : Json) (elapsed : ℚ)
  | fail (error : AxiosError)

/-- The catch-branch result of getSuggestions (api_client.ts lines
106-122): empty suggestions, unknown model, the detected language, and
the classified message. -/
def errorResponse (context : CodeContext) (error : AxiosError) : SuggestionResponse :=
  { suggestions := []
    metadata :=
      { processingTimeMs := 0, modelVersion := "unknown", cacheHit := false,
        contextHash := "", languageDetected := some (detectLanguage context),
        configUsed := none, modelType := none }
    status := "error"
    errorMessage := some (getErrorMessage error) }

/-- getSuggestions of api_client.ts (lines 67-123) as a function of the
dispatch event: a valid 2xx body is returned (with processingTimeMs and
languageDetected filled in), an invalid body raises and is caught, and
a rejection is converted by the catch branch. -/
def getSuggestions (context : CodeContext) (event : DispatchEvent) : SuggestionResponse :=
  match event with
  | .ok data elapsed =>
    if isValidSuggestionResponse data then
      decodeResponse data elapsed (detectLanguage context)
    else
      errorResponse context (thrownError "Invalid response format from API")
  | .fail e => errorResponse context e

/-- A dispatch that did not produce a valid 2xx body. -/
def DispatchFailed : DispatchEvent → Prop
  | .ok data _ => isValidSuggestionResponse data = false
  | .fail _ => True

/-! ## Claim C4: the dispatcher degrades every failure to a typed error -/

/-- C4.  For every context and every failure mode (rejection without a
response, non-2xx reply, timeout, or 2xx reply failing structural
validation) getSuggestions returns a response with status error, no
suggestions, and the human-readable message classified by failure kind:
server error carrying the status code, the no-response message, the
timeout message, or the caught validation error.  The embedding is a
total function, so no failure escapes as an exception. -/
theorem c4_error_handling (context : CodeContext) (event : DispatchEvent)
    (h : DispatchFailed event) :
    (getSuggestions context event).status = "error"
    ∧ (getSuggestions context event).suggestions = []
    ∧ (∀ e, event = DispatchEvent.fail e →
        (getSuggestions context event).errorMessage = some (getErrorMessage e))
    ∧ (∀ e r, event = DispatchEvent.fail e → e.response = some r →
        (getSuggestions context event).errorMessage =
          some ("Server error: " ++ String.mk (natDigits (r.status + 1) r.status) ++
            " - " ++ (match r.dataMessage with
                      | some m => if m = "" then r.statusText else m
                      | none => r.statusText)))
    ∧ (∀ e, event = DispatchEvent.fail e → e.response = none → e.hasRequest = true →
        (getSuggestions context event).errorMessage =
          some "No response from server. Please check your connection and API URL.")
    ∧ (∀ e, event = DispatchEvent.fail e → e.response = none → e.hasRequest = false →
        e.code = some "ECONNABORTED" →
        (getSuggestions context event).errorMessage =
          some "Request timeout. The AI service is taking too long to respond.")
    ∧ (∀ data elapsed, event = DispatchEvent.ok data elapsed →
        (getSuggestions context event).errorMessage =
          some "Request failed: Invalid response format from API") := by
  cases event with
  | ok data elapsed =>
    simp only [DispatchFailed] at h
    refine ⟨?_, ?_, ?_, ?_, ?_, ?_, ?_⟩
    · simp [getSuggestions, h, errorResponse]
    · simp [getSuggestions, h, errorResponse]
    · intro e he; cases he
    · intro e r he; cases he
    · intro e he; cases he
    · intro e he; cases he
    · intro d el he
      cases he
      simp [getSuggestions, h, errorResponse, getErrorMessage, thrownError]
  | fail e =>
    refine ⟨rfl, rfl, ?_, ?_, ?_, ?_, ?_⟩
    · intro e' he
      cases he
      rfl
    · intro e' r he hr
      cases he
      simp [getSuggestions, errorResponse, getErrorMessage, hr]
    · intro e' he hn hreq
      cases he
      simp [getSuggestions, errorResponse, getErrorMessage, hn, hreq]
    · intro e' he hn hreq hcode
      cases he
      simp [getSuggestions, errorResponse, getErrorMessage, hn, hreq, hcode]
    · intro d el he; cases he

/-- Scenario B rejection: a 500 reply. -/
def err500 : AxiosError :=
  { response :=
      some { status := 500, statusText := "Internal Server Error", dataMessage := none }
    hasRequest := true
    code := none
    message := "Request failed with status code 500" }

/-- Witness for C4 at the Scenario B input: a dispatcher that received
a 500 reply returns an error status, no suggestions, and the server
error message carrying the status code. -/
theorem c4_witness :
    (getSuggestions ctxA (DispatchEvent.fail err500)).status = "error"
    ∧ (getSuggestions ctxA (DispatchEvent.fail err500)).suggestions = []
    ∧ (getSuggestions ctxA (DispatchEvent.fail err500)).errorMessage =
        some "Server error: 500 - Internal Server Error" := by
  refine ⟨(c4_error_handling ctxA (DispatchEvent.fail err500) trivial).1,
          (c4_error_handling ctxA (DispatchEvent.fail err500) trivial).2.1, ?_⟩
  have h := (c4_error_handling ctxA (DispatchEvent.fail err500) trivial).2.2.2.1
    err500 { status := 500, statusText := "Internal Server Error", dataMessage := none }
    rfl rfl
  rw [h]
  rfl

/-! ## Suggestion text formatting (completion_provider.ts, formatSuggestionText)

formatSuggestionText (lines 327-341) splits the suggestion into lines;
a multi-line suggestion keeps its first line and has the leading
whitespace of every later line replaced by one resolved indentation
unit (the regex replace of the maximal leading whitespace run). -/

/-- JS regex whitespace class on the characters that occur in code
suggestions (space, tab, carriage return, vertical tab, form feed,
no-break space). -/
def isJsWs (c : Char) : Bool :=
  c = ' ' || c = '\t' || c = '\n' || c = '\r' || c = '\x0b' || c = '\x0c' || c = ' '

/-- line.replace of the leading whitespace run by the indentation
unit. -/
def reindent (indentChars line : List Char) : List Char :=
  indentChars ++ line.dropWhile isJsWs

/-- The indentation unit resolved from a language configuration: one
tab, or indentSize spaces. -/
def jsIndentChars (config : LanguageConfig) : List Char :=
  if config.indentStyle = "tabs" then ['\t'] else List.replicate config.indentSize ' '

/-- JS Array.prototype.join with a one-character separator. -/
def joinCh (sep : Char) : List (List Char) → List Char
  | [] => []
  | [l] => l
  | l :: ls => l ++ sep :: joinCh sep ls

/-- formatSuggestionText of completion_provider.ts: without a language
configuration the text passes through; a single line passes through; in
a multi-line text every line after the first gets its leading
whitespace replaced by the resolved indentation unit. -/
def formatSuggestionText (text : String) (config : Option LanguageConfig) : String :=
  match config with
  | none => text
  | some cfg =>
    let lines := splitCh '\n' text.data
    if 1 < lines.length then
      String.mk (joinCh '\n'
        (lines.enum.map fun il => if il.1 = 0 then il.2 else reindent (jsIndentChars cfg) il.2))
    else text

/-! ### Split/join lemmas -/

theorem splitCh_ne_nil (sep : Char) (t : List Char) : splitCh sep t ≠ [] := by
  cases t with
  | nil => simp [splitCh]
  | cons c cs =>
    by_cases h : c = sep
    · simp [splitCh, h]
    · simp only [splitCh, if_neg h]
      cases splitCh sep cs <;> simp

theorem splitCh_not_mem (sep : Char) (t : List Char) :
    ∀ l ∈ splitCh sep t, sep ∉ l := by
  induction t with
  | nil =>
    intro l hl
    simp [splitCh] at hl
    simp [hl]
  | cons c cs ih =>
    intro l hl
    by_cases h : c = sep
    · simp only [splitCh, if_pos h, List.mem_cons] at hl
      rcases hl with rfl | hl
      · simp
      · exact ih l hl
    · simp only [splitCh, if_neg h] at hl
      cases hsp : splitCh sep cs with
      | nil => exact absurd hsp (splitCh_ne_nil sep cs)
      | cons l0 ls =>
        rw [hsp] at hl
        simp only [List.mem_cons] at hl
        rcases hl with rfl | hl
        · intro hmem
          rcases List.mem_cons.mp hmem with rfl | hmem
          · exact h rfl
          · exact ih l0 (by simp [hsp]) hmem
        · exact ih l (by simp [hsp, hl])

theorem splitCh_of_not_mem (sep : Char) (t : List Char) (h : sep ∉ t) :
    splitCh sep t = [t] := by
  induction t with
  | nil => rfl
  | cons c cs ih =>
    simp only [List.mem_cons] at h
    push_neg at h
    have hne : c ≠ sep := fun hc => h.1 hc.symm
    simp only [splitCh, if_neg hne, ih h.2]

theorem splitCh_append (sep : Char) (a t : List Char) (h : sep ∉ a) :
    splitCh sep (a ++ sep :: t) = a :: splitCh sep t := by
  induction a with
  | nil => simp [splitCh]
  | cons c a' ih =>
    simp only [List.mem_cons] at h
    push_neg at h
    have hne : c ≠ sep := fun hc => h.1 hc.symm
    have hrec := ih h.2
    simp only [List.cons_append, splitCh, if_neg hne]
    rw [show splitCh sep (List.append a' (sep :: t)) = a' :: splitCh sep t from hrec]

theorem splitCh_joinCh (sep : Char) (ls : List (List Char)) (hne : ls ≠ [])
    (h : ∀ l ∈ ls, sep ∉ l) : splitCh sep (joinCh sep ls) = ls := by
  induction ls with
  | nil => exact absurd rfl hne
  | cons l rest ih =>
    cases rest with
    | nil =>
      simp only [joinCh]
      exact splitCh_of_not_mem sep l (h l (by simp))
    | cons l' rest' =>
      have hjoin : joinCh sep (l :: l' :: rest') = l ++ sep :: joinCh sep (l' :: rest') := rfl
      rw [hjoin, splitCh_append sep l _ (h l (by simp))]
      rw [ih (by simp) fun x hx => h x (by simp [hx])]

theorem dropWhile_all_append (p : Char → Bool) (a b : List Char)
    (h : ∀ c ∈ a, p c = true) : (a ++ b).dropWhile p = b.dropWhile p := by
  induction a with
  | nil => rfl
  | cons c a' ih =>
    simp only [List.cons_append, List.dropWhile_cons, h c (by simp)]
    exact ih fun x hx => h x (by simp [hx])

theorem dropWhile_dropWhile (p : Char → Bool) (l : List Char) :
    (l.dropWhile p).dropWhile p = l.dropWhile p := by
  induction l with
  | nil => rfl
  | cons c l' ih =>
    by_cases h : p c = true
    · simpa [List.dropWhile_cons, h] using ih
    · simp only [Bool.not_eq_true] at h
      simp [List.dropWhile_cons, h]

theorem jsIndentChars_all_ws (config : LanguageConfig) :
    ∀ c ∈ jsIndentChars config, isJsWs c = true := by
  intro c hc
  unfold jsIndentChars at hc
  split at hc
  · simp only [List.mem_singleton] at hc
    simp [hc, isJsWs]
  · rw [List.eq_of_mem_replicate hc]
    simp [isJsWs]

theorem reindent_idem (config : LanguageConfig) (l : List Char) :
    reindent (jsIndentChars config) (reindent (jsIndentChars config) l) =
      reindent (jsIndentChars config) l := by
  unfold reindent
  rw [dropWhile_all_append isJsWs _ _ (jsIndentChars_all_ws config),
    dropWhile_dropWhile]

theorem not_mem_jsIndentChars (config : LanguageConfig) : '\n' ∉ jsIndentChars config := by
  intro h
  have := jsIndentChars_all_ws config '\n' h
  unfold jsIndentChars at h
  split at h
  · simp at h
  · have := List.eq_of_mem_replicate h
    simp at this

theorem reindent_not_mem (config : LanguageConfig) (l : List Char)
    (h : '\n' ∉ l) : '\n' ∉ reindent (jsIndentChars config) l := by
  unfold reindent
  rw [List.mem_append]
  rintro (hmem | hmem)
  · exact not_mem_jsIndentChars config hmem
  · exact h ((l.dropWhile_sublist isJsWs).mem hmem)

theorem enum_map_first_kept (f : List Char → List Char) (l0 : List Char)
    (ls : List (List Char)) :
    ((l0 :: ls).enum.map fun il => if il.1 = 0 then il.2 else f il.2) =
      l0 :: ls.map f := by
  have haux : ∀ (xs : List (List Char)) (n : Nat), n ≠ 0 →
      (List.enumFrom n xs).map (fun il => if il.1 = 0 then il.2 else f il.2) =
        xs.map f := by
    intro xs
    induction xs with
    | nil => intro n _; rfl
    | cons x xs' ih =>
      intro n hn
      simp only [List.enumFrom_cons, List.map_cons, if_neg hn]
      rw [ih (n + 1) (by omega)]
  rw [List.enum_cons]
  simp only [List.map_cons, eq_self_iff_true, if_true]
  rw [haux ls 1 one_ne_zero]

theorem formatSuggestionText_some (text : String) (cfg : LanguageConfig) :
    formatSuggestionText text (some cfg) =
      if 1 < (splitCh '\n' text.data).length then
        String.mk (joinCh '\n' ((splitCh '\n' text.data).enum.map
          fun il => if il.1 = 0 then il.2 else reindent (jsIndentChars cfg) il.2))
      else text := rfl

/-! ## Claim C9: formatting leaves the first line, re-indents the rest,
and is idempotent -/

/-- C9.  With a resolved language configuration: a single-line text
passes through unchanged; a multi-line text keeps its first line and
has every later line re-indented to the resolved indentation unit (its
leading whitespace replaced); and the operation is idempotent, a second
application to its own output changing nothing. -/
theorem c9_formatting (text : String) (cfg : LanguageConfig) :
    ('\n' ∉ text.data → formatSuggestionText text (some cfg) = text)
    ∧ (∀ l0 l1 ls, splitCh '\n' text.data = l0 :: l1 :: ls →
        (formatSuggestionText text (some cfg)).data =
          joinCh '\n' (l0 :: (l1 :: ls).map (reindent (jsIndentChars cfg))))
    ∧ formatSuggestionText (formatSuggestionText text (some cfg)) (some cfg) =
        formatSuggestionText text (some cfg) := by
  have hmulti : ∀ l0 l1 ls, splitCh '\n' text.data = l0 :: l1 :: ls →
      (formatSuggestionText text (some cfg)).data =
        joinCh '\n' (l0 :: (l1 :: ls).map (reindent (jsIndentChars cfg))) := by
    intro l0 l1 ls hsplit
    rw [formatSuggestionText_some, hsplit, if_pos (by simp), enum_map_first_kept]
  refine ⟨?_, hmulti, ?_⟩
  · intro h
    rw [formatSuggestionText_some, splitCh_of_not_mem '\n' text.data h]
    simp
  · cases hsplit : splitCh '\n' text.data with
    | nil => exact absurd hsplit (splitCh_ne_nil '\n' text.data)
    | cons l0 rest =>
      cases rest with
      | nil =>
        have hid : formatSuggestionText text (some cfg) = text := by
          rw [formatSuggestionText_some, hsplit]
          simp
        rw [hid, hid]
      | cons l1 ls =>
        have hdata := hmulti l0 l1 ls hsplit
        have hlines : splitCh '\n' (formatSuggestionText text (some cfg)).data =
            l0 :: (l1 :: ls).map (reindent (jsIndentChars cfg)) := by
          rw [hdata]
          refine splitCh_joinCh '\n' _ (by simp) ?_
          intro l hl
          rcases List.mem_cons.mp hl with rfl | hl
          · exact splitCh_not_mem '\n' text.data l (by simp [hsplit])
          · rcases List.mem_map.mp hl with ⟨x, hx, rfl⟩
            exact reindent_not_mem cfg x
              (splitCh_not_mem '\n' text.data x (by simp [hsplit, hx]))
        rw [formatSuggestionText_some (formatSuggestionText text (some cfg)) cfg]
        rw [hlines, if_pos (by simp), enum_map_first_kept]
        have hmapeq : ((l1 :: ls).map (reindent (jsIndentChars cfg))).map
              (reindent (jsIndentChars cfg)) =
            (l1 :: ls).map (reindent (jsIndentChars cfg)) := by
          rw [List.map_map]
          exact List.map_congr_left fun x _ => reindent_idem cfg x
        rw [hmapeq, ← hdata]

/-- The python entry of the provider language table, for concrete
formatting scenarios. -/
def pyCfg : LanguageConfig :=
  { maxTokens := 150, temperature := mkRat 6 10, topP := mkRat 85 100,
    contextWindow := 2048, commentStyle := "#", indentStyle := "spaces",
    indentSize := 4, fileExtensions := [".py", ".pyx", ".pyi"] }

/-- Witness for C9: a single-line text passes through; a two-line text
keeps its first line and re-indents the second to four spaces. -/
theorem c9_witness :
    formatSuggestionText "return 1" (some pyCfg) = "return 1"
    ∧ (formatSuggestionText (String.mk ['i', 'f', ':', '\n', ' ', 'b']) (some pyCfg)).data =
        ['i', 'f', ':', '\n', ' ', ' ', ' ', ' ', 'b'] := by
  refine ⟨(c9_formatting "return 1" pyCfg).1 (by decide), ?_⟩
  have h := (c9_formatting (String.mk ['i', 'f', ':', '\n', ' ', 'b']) pyCfg).2.1
    ['i', 'f', ':'] [' ', 'b'] [] (by decide)
  rw [h]
  decide

/-! ## Completion items and ranking (completion_provider.ts, convertToCompletionItems)

convertToCompletionItems (lines 281-325) builds one editor item per
suggestion, in response order.  Its ranking effect is carried entirely
by sortText: the editor displays items in lexicographic sortText order
(code-unit comparison), stable, so ties keep response order.  The item
carries the fields the provider sets; the acceptance-tracking command
is kept as its argument triple. -/

/-- Math.round (c * k) for a JS number c and integer factor k, computed
on the numerator/denominator pair: Math.round x = ⌊x + 1/2⌋ and
⌊(k·n/d) + 1/2⌋ = (2·k·n + d) div (2·d) with the division Euclidean
(the denominator is positive, so this is floor division).  The lemma
jsRoundMul_eq_floor below proves this equals the floor expression. -/
def jsRoundMul (c : ℚ) (k : Nat) : ℤ :=
  (2 * (k : ℤ) * c.num + (c.den : ℤ)) / (2 * (c.den : ℤ))

theorem jsRoundMul_eq_floor (c : ℚ) (k : Nat) :
    jsRoundMul c k = ⌊c * (k : ℚ) + 1 / 2⌋ := by
  have hd : (0 : ℤ) < (c.den : ℤ) := by exact_mod_cast c.den_pos
  have hD : (0 : ℤ) < 2 * (c.den : ℤ) := by omega
  set N : ℤ := 2 * (k : ℤ) * c.num + (c.den : ℤ) with hN
  set D : ℤ := 2 * (c.den : ℤ) with hDdef
  have hdm := Int.ediv_add_emod N D
  have hm0 := Int.emod_nonneg N (ne_of_gt hD)
  have hmlt := Int.emod_lt_of_pos N hD
  have hlow : D * (N / D) ≤ N := by omega
  have hhigh : N < D * (N / D) + D := by omega
  have hval : c * (k : ℚ) + 1 / 2 = (N : ℚ) / (D : ℚ) := by
    have hc : ((c.num : ℚ) / (c.den : ℚ)) = c := Rat.num_div_den c
    have hden : ((c.den : ℚ)) ≠ 0 := by
      exact_mod_cast c.den_pos.ne'
    rw [← hc, hN, hDdef]
    push_cast
    field_simp
    ring
  have hDQ : (0 : ℚ) < (D : ℚ) := by exact_mod_cast hD
  symm
  rw [Int.floor_eq_iff]
  constructor
  · rw [hval, le_div_iff₀ hDQ]
    calc ((N / D : ℤ) : ℚ) * (D : ℚ) = ((D * (N / D) : ℤ) : ℚ) := by push_cast; ring
    _ ≤ ((N : ℤ) : ℚ) := by exact_mod_cast hlow
  · rw [hval, div_lt_iff₀ hDQ]
    calc ((N : ℤ) : ℚ) < ((D * (N / D) + D : ℤ) : ℚ) := by exact_mod_cast hhigh
    _ = ((N / D : ℤ) + 1) * (D : ℚ) := by push_cast; ring

/-- String.prototype.padStart(4, 0). -/
def padStart4 (s : List Char) : List Char :=
  List.replicate (4 - s.length) '0' ++ s

/-- The language-specific priority bonus (line 303): a truthy
languageSpecific flag is worth 100. -/
def priorityBonus (suggestion : Suggestion) : ℤ :=
  if suggestion.languageSpecific = some true then 100 else 0

/-- The sort value (line 304):
1000 - Math.round(confidence * 999) - priorityBonus. -/
def sortValue (suggestion : Suggestion) : ℤ :=
  1000 - jsRoundMul suggestion.confidence 999 - priorityBonus suggestion

/-- The sortText characters (line 305):
String(sortValue).padStart(4, 0). -/
def sortTextChars (suggestion : Suggestion) : List Char :=
  padStart4 (intStr (sortValue suggestion))

/-- JS string comparison: code-unit lexicographic, a strict prefix
ordering first. -/
def strLtB : List Char → List Char → Bool
  | _, [] => false
  | [], _ :: _ => true
  | a :: as, b :: bs => if a < b then true else if b < a then false else strLtB as bs

/-- getCompletionItemKind of completion_provider.ts (lines 357-368). -/
def getCompletionItemKind (suggestionType : String) : String :=
  if suggestionType = "single-line" then "Text"
  else if suggestionType = "multi-line" then "Snippet"
  else if suggestionType = "block" then "Module"
  else "Text"

/-- The provider language table built by the constructor
(completion_provider.ts lines 96-185); the claims concern a provider
carrying this built-in table. -/
def defaultLanguageConfigs : List (String × LanguageConfig) :=
  [("python", pyCfg),
   ("javascript",
    { maxTokens := 120, temperature := mkRat 7 10, topP := mkRat 9 10,
      contextWindow := 1536, commentStyle := "//", indentStyle := "spaces",
      indentSize := 2, fileExtensions := [".js", ".jsx", ".mjs"] }),
   ("typescript",
    { maxTokens := 120, temperature := mkRat 7 10, topP := mkRat 9 10,
      contextWindow := 1536, commentStyle := "//", indentStyle := "spaces",
      indentSize := 2, fileExtensions := [".ts", ".tsx"] }),
   ("java",
    { maxTokens := 140, temperature := mkRat 6 10, topP := mkRat 85 100,
      contextWindow := 1800, commentStyle := "//", indentStyle := "spaces",
      indentSize := 4, fileExtensions := [".java"] }),
   ("cpp",
    { maxTokens := 130, temperature := mkRat 6 10, topP := mkRat 85 100,
      contextWindow := 1800, commentStyle := "//", indentStyle := "spaces",
      indentSize := 4, fileExtensions := [".cpp", ".cc", ".cxx", ".c++"] }),
   ("c",
    { maxTokens := 130, temperature := mkRat 6 10, topP := mkRat 85 100,
      contextWindow := 1800, commentStyle := "//", indentStyle := "spaces",
      indentSize := 4, fileExtensions := [".c", ".h"] }),
   ("go",
    { maxTokens := 120, temperature := mkRat 6 10, topP := mkRat 85 100,
      contextWindow := 1600, commentStyle := "//", indentStyle := "tabs",
      indentSize := 1, fileExtensions := [".go"] }),
   ("rust",
    { maxTokens := 140, temperature := mkRat 6 10, topP := mkRat 85 100,
      contextWindow := 1800, commentStyle := "//", indentStyle := "spaces",
      indentSize := 4, fileExtensions := [".rs"] })]

/-- enhanceDescription of completion_provider.ts (lines 343-355). -/
def enhanceDescription (description : String) (context : CodeContext) : String :=
  match assocGet context.language defaultLanguageConfigs with
  | some cfg =>
    description ++ "\n\n**Language:** " ++ context.language ++
      "\n**Indent Style:** " ++ cfg.indentStyle ++ " (" ++
      String.mk (natDigits (cfg.indentSize + 1) cfg.indentSize) ++ ")" ++
      "\n**Comment Style:** " ++ cfg.commentStyle
  | none => description

/-- The editor item as the provider fills it (label, kind, formatted
insert text, detail with rounded confidence percentage, enhanced
documentation, sortText, range from replaceRange, and the
acceptance-tracking command arguments index / type / language). -/
structure CompletionItem where
  label : String
  kind : String
  insertText : String
  detail : String
  documentation : Option String
  sortText : String
  range : Option (Nat × Nat)
  commandArgs : Nat × String × String
deriving DecidableEq, Repr

/-- convertToCompletionItems of completion_provider.ts (lines 281-325),
one item per suggestion in response order. -/
def convertToCompletionItems (suggestions : List Suggestion)
    (context : CodeContext) : List CompletionItem :=
  let languageConfig := assocGet context.language defaultLanguageConfigs
  suggestions.enum.map fun is =>
    { label := is.2.text
      kind := getCompletionItemKind is.2.type
      insertText := formatSuggestionText is.2.text languageConfig
      detail := "AI Suggestion (" ++
        String.mk (intStr (jsRoundMul is.2.confidence 100)) ++
        "% confidence) - " ++ context.language
      documentation := is.2.description.map fun d => enhanceDescription d context
      sortText := String.mk (sortTextChars is.2)
      range := is.2.replaceRange
      commandArgs := (is.1, is.2.type, context.language) }

/-- The order the editor displays items in: lexicographically by
sortText, stably.  A stable sort by a key is the sort of key/position
pairs under the lexicographic product order, so ties keep response
order. -/
def itemLe (a b : Nat × CompletionItem) : Prop :=
  strLtB a.2.sortText.data b.2.sortText.data = true
  ∨ (a.2.sortText.data = b.2.sortText.data ∧ a.1 ≤ b.1)

instance : DecidableRel itemLe := fun a b => by
  unfold itemLe
  infer_instance

/-- The displayed arrangement of the converted items, tagged with their
response positions. -/
def rankedPairs (items : List CompletionItem) : List (Nat × CompletionItem) :=
  List.insertionSort itemLe items.enum

/-! ## The completion pipeline (completion_provider.ts, provideCompletionItems)

provideCompletionItems (lines 187-260) is an async method whose single
suspension point is the awaited dispatch.  It is embedded as a
two-phase state machine: beginInvocation is the synchronous prefix up
to the await (enabled check, single-flight guard, context enhancement,
language check, hash, cache lookup) and resumeInvocation is the rest
(cache write, statistics, conversion, guard release in the finally).
Context extraction itself is the ContextExtractor collaborator; its
output enters as the raw context argument.  The wall-clock time and
calendar day read by the statistics are environment inputs of the
resume phase. -/

/-- The document fields the provider reads: languageId and fileName. -/
structure DocumentInfo where
  languageId : String
  fileName : String
deriving DecidableEq, Repr

/-- Falsy-string fallback, JS a or-else d. -/
def jsOrStr (a d : String) : String := if a = "" then d else a

/-- enhanceContextWithLanguageInfo of completion_provider.ts (lines
262-275): overwrite language from the document, derive the file
extension from the file name, and resolve indent style/size and context
window from the language table with the JS falsy fallbacks. -/
def enhanceContextWithLanguageInfo (context : CodeContext) (doc : DocumentInfo) :
    CodeContext :=
  let language := doc.languageId
  let languageConfig := assocGet language defaultLanguageConfigs
  { context with
    language := language
    fileExtension :=
      match (splitCh '.' doc.fileName.data).getLast? with
      | some ext => if ext = [] then none else some (String.mk ('.' :: ext))
      | none => none
    indentStyle :=
      some (jsOrStr (match languageConfig with
                     | some cfg => cfg.indentStyle
                     | none => "") "spaces")
    indentSize :=
      some (match languageConfig with
            | some cfg => if cfg.indentSize = 0 then 4 else cfg.indentSize
            | none => 4)
    contextWindow :=
      some (match languageConfig with
            | some cfg => if cfg.contextWindow = 0 then 1024 else cfg.contextWindow
            | none => 1024) }

/-- isLanguageSupported of completion_provider.ts (lines 277-279). -/
def isLanguageSupported (language : String) : Bool :=
  (assocGet language defaultLanguageConfigs).isSome

/-- One provider instance: the suggestion cache, the single-flight
guard flag, and the statistics manager it reports to. -/
structure ProviderState where
  cache : SuggestionCache
  isProcessing : Bool
  statsMgr : StatsManagerState
deriving DecidableEq, Repr

/-- A fresh provider wired to a fresh statistics manager. -/
def initialProviderState : ProviderState :=
  { cache := [], isProcessing := false, statsMgr := initialStatsState }

/-- What the synchronous prefix of an invocation produces: either a
finished result (disabled, guarded, unsupported language, or a cache
hit) or a suspension carrying the enhanced context and hash into the
awaited dispatch. -/
inductive BeginResult where
  | done (items : List CompletionItem)
  | awaiting (codeContext : CodeContext) (contextHash : String)
deriving DecidableEq, Repr

/-- The synchronous prefix of provideCompletionItems (lines 193-230):
return empty when disabled; return empty when the single-flight guard
is held; otherwise take the guard, enhance the context, reject
unsupported languages (releasing the guard through the finally),
compute the hash, and on a cached successful response record a
cache-hit statistic and return the converted cached suggestions
(releasing the guard); otherwise suspend into the dispatch. -/
def beginInvocation (s : ProviderState) (enabled : Bool) (rawCtx : CodeContext)
    (doc : DocumentInfo) (md5 : String → String) : ProviderState × BeginResult :=
  if enabled = false then (s, .done [])
  else if s.isProcessing then (s, .done [])
  else
    let s1 : ProviderState := { s with isProcessing := true }
    let codeContext := enhanceContextWithLanguageInfo rawCtx doc
    if isLanguageSupported codeContext.language = false then
      ({ s1 with isProcessing := false }, .done [])
    else
      let contextHash := generateContextHash md5 codeContext
      match mapGet contextHash s1.cache with
      | some cachedResponse =>
        if cachedResponse.status = "success" then
          ({ s1 with
              isProcessing := false
              statsMgr := recordCacheHit s1.statsMgr },
           .done (convertToCompletionItems cachedResponse.suggestions codeContext))
        else (s1, .awaiting codeContext contextHash)
      | none => (s1, .awaiting codeContext contextHash)

/-- How the awaited dispatch resolves: with a response value (the
dispatcher never rejects, claim C4), or with an exception thrown by
other code inside the try. -/
inductive DispatchResult where
  | response (resp : SuggestionResponse)
  | thrown

/-- The continuation of provideCompletionItems after the await (lines
232-259): on a successful response cache it (set then cleanup), record
the completion statistic, and return the converted suggestions; on any
other status record an api error and return empty; on a thrown
exception record a provider error and return empty.  The finally
releases the single-flight guard on every path. -/
def resumeInvocation (s : ProviderState) (codeContext : CodeContext)
    (contextHash : String) (result : DispatchResult) (elapsed : ℚ)
    (today : String) : ProviderState × List CompletionItem :=
  match result with
  | .response response =>
    if response.status = "success" then
      ({ cache := cacheInsert s.cache contextHash response
         isProcessing := false
         statsMgr :=
           recordCompletion s.statsMgr codeContext.language
             response.suggestions.length elapsed response.metadata.cacheHit today },
       convertToCompletionItems response.suggestions codeContext)
    else
      ({ s with
          isProcessing := false
          statsMgr := recordError s.statsMgr "api_error" }, [])
  | .thrown =>
    ({ s with
        isProcessing := false
        statsMgr := recordError s.statsMgr "provider_error" }, [])

/-! ## Claim C5: only successful responses enter the cache -/

/-- Membership in a set-then-cleanup result comes from the old cache or
is the written value. -/
theorem mem_cacheInsert (m : SuggestionCache) (k : String)
    (v : SuggestionResponse) (kv : String × SuggestionResponse)
    (h : kv ∈ cacheInsert m k v) : kv ∈ m ∨ kv = (k, v) := by
  have hsub : ∀ (ks : List String) (m0 : SuggestionCache) (x : String × SuggestionResponse),
      x ∈ ks.foldl (fun acc k' => mapDelete acc k') m0 → x ∈ m0 := by
    intro ks
    induction ks with
    | nil => intro m0 x hx; exact hx
    | cons k' ks' ih =>
      intro m0 x hx
      have hx' := ih (mapDelete m0 k') x hx
      unfold mapDelete at hx'
      exact List.mem_of_mem_filter hx'
  have hclean : kv ∈ mapSet m k v := by
    unfold cacheInsert cleanupCache at h
    split at h
    · exact hsub _ _ kv h
    · exact h
  unfold mapSet at hclean
  split at hclean
  · rcases List.mem_map.mp hclean with ⟨p, hp, hpe⟩
    by_cases hpk : p.1 = k
    · right
      rw [if_pos hpk] at hpe
      exact hpe.symm
    · left
      rw [if_neg hpk] at hpe
      exact hpe ▸ hp
  · rcases List.mem_append.mp hclean with hm | hm
    · exact Or.inl hm
    · exact Or.inr (List.mem_singleton.mp hm)

/-- C5.  A dispatch that resolves with status error or partial leaves
the cache untouched, records an api-error statistic, and yields an
empty result; every response held in the cache after any resume step
still has status success when all previously cached ones did; and the
synchronous prefix of an invocation never writes the cache at all.
Hence only success responses are ever stored. -/
theorem c5_only_success_cached (s : ProviderState) (codeContext : CodeContext)
    (contextHash : String) (resp : SuggestionResponse) (elapsed : ℚ)
    (today : String) :
    (resp.status ≠ "success" →
      resumeInvocation s codeContext contextHash (.response resp) elapsed today =
        ({ s with
            isProcessing := false
            statsMgr := recordError s.statsMgr "api_error" }, []))
    ∧ ((∀ kv ∈ s.cache, kv.2.status = "success") →
        ∀ kv ∈ (resumeInvocation s codeContext contextHash
            (.response resp) elapsed today).1.cache,
          kv.2.status = "success")
    ∧ (∀ (enabled : Bool) (rawCtx : CodeContext) (doc : DocumentInfo)
          (md5 : String → String),
        (beginInvocation s enabled rawCtx doc md5).1.cache = s.cache) := by
  refine ⟨?_, ?_, ?_⟩
  · intro hns
    simp only [resumeInvocation]
    rw [if_neg hns]
  · intro hall kv hkv
    simp only [resumeInvocation] at hkv
    by_cases hs : resp.status = "success"
    · rw [if_pos hs] at hkv
      simp only at hkv
      rcases mem_cacheInsert s.cache contextHash resp kv hkv with hm | he
      · exact hall kv hm
      · rw [he]
        exact hs
    · rw [if_neg hs] at hkv
      exact hall kv hkv
  · intro enabled rawCtx doc md5
    simp only [beginInvocation]
    repeat' split
    all_goals rfl

/-- An error response, for concrete failing-dispatch scenarios. -/
def demoErrResp : SuggestionResponse :=
  { demoResp with status := "error", errorMessage := some "Server error: 500 - boom" }

/-- Witness for C5: a dispatch resolving with an error response leaves
the initial provider with an unchanged (empty) cache, one counted
error, and no items. -/
theorem c5_witness :
    resumeInvocation initialProviderState ctxA "h1" (.response demoErrResp) 0 "2026-02-03" =
      ({ initialProviderState with
          isProcessing := false
          statsMgr := recordError initialProviderState.statsMgr "api_error" }, []) :=
  (c5_only_success_cached initialProviderState ctxA "h1" demoErrResp 0 "2026-02-03").1
    (by decide)

/-! ## Claim C6: the single-flight guard -/

/-- C6.  With the guard free, a supported language and a cache miss,
the first trigger suspends holding the guard; any trigger arriving
while a provider holds the guard returns an empty result immediately,
is not queued, and leaves the provider state exactly as it was; the
resume of the first invocation releases the guard whether the dispatch
succeeded, failed, or threw; and when it succeeded the statistics count
exactly one more completion than before both triggers. -/
theorem c6_single_flight (s : ProviderState) (rawCtx : CodeContext)
    (doc : DocumentInfo) (md5 : String → String)
    (hidle : s.isProcessing = false)
    (hlang : isLanguageSupported
      (enhanceContextWithLanguageInfo rawCtx doc).language = true)
    (hmiss : mapGet (generateContextHash md5
      (enhanceContextWithLanguageInfo rawCtx doc)) s.cache = none) :
    beginInvocation s true rawCtx doc md5 =
      ({ s with isProcessing := true },
       .awaiting (enhanceContextWithLanguageInfo rawCtx doc)
         (generateContextHash md5 (enhanceContextWithLanguageInfo rawCtx doc)))
    ∧ (∀ (s' : ProviderState) (enabled : Bool) (rc : CodeContext)
          (d : DocumentInfo) (m : String → String), s'.isProcessing = true →
        beginInvocation s' enabled rc d m = (s', .done []))
    ∧ (∀ resp elapsed today, resp.status = "success" →
        (resumeInvocation { s with isProcessing := true }
            (enhanceContextWithLanguageInfo rawCtx doc)
            (generateContextHash md5 (enhanceContextWithLanguageInfo rawCtx doc))
            (.response resp) elapsed today).1.isProcessing = false
        ∧ (resumeInvocation { s with isProcessing := true }
            (enhanceContextWithLanguageInfo rawCtx doc)
            (generateContextHash md5 (enhanceContextWithLanguageInfo rawCtx doc))
            (.response resp) elapsed today).1.statsMgr.stats.totalRequests =
          s.statsMgr.stats.totalRequests + 1)
    ∧ (∀ resp elapsed today, resp.status ≠ "success" →
        (resumeInvocation { s with isProcessing := true }
            (enhanceContextWithLanguageInfo rawCtx doc)
            (generateContextHash md5 (enhanceContextWithLanguageInfo rawCtx doc))
            (.response resp) elapsed today).1.isProcessing = false
        ∧ (resumeInvocation { s with isProcessing := true }
            (enhanceContextWithLanguageInfo rawCtx doc)
            (generateContextHash md5 (enhanceContextWithLanguageInfo rawCtx doc))
            (.response resp) elapsed today).1.statsMgr.stats.totalRequests =
          s.statsMgr.stats.totalRequests)
    ∧ (∀ elapsed today,
        (resumeInvocation { s with isProcessing := true }
            (enhanceContextWithLanguageInfo rawCtx doc)
            (generateContextHash md5 (enhanceContextWithLanguageInfo rawCtx doc))
            .thrown elapsed today).1.isProcessing = false
        ∧ (resumeInvocation { s with isProcessing := true }
            (enhanceContextWithLanguageInfo rawCtx doc)
            (generateContextHash md5 (enhanceContextWithLanguageInfo rawCtx doc))
            .thrown elapsed today).1.statsMgr.stats.totalRequests =
          s.statsMgr.stats.totalRequests) := by
  refine ⟨?_, ?_, ?_, ?_, ?_⟩
  · unfold beginInvocation
    rw [if_neg (by simp), if_neg (by simp [hidle])]
    simp only
    rw [if_neg (by simp [hlang]), hmiss]
  · intro s' enabled rc d m hp
    unfold beginInvocation
    by_cases he : enabled = false
    · rw [if_pos he]
    · rw [if_neg he, if_pos hp]
  · intro resp elapsed today hs
    simp only [resumeInvocation]
    rw [if_pos hs]
    exact ⟨rfl, rfl⟩
  · intro resp elapsed today hs
    simp only [resumeInvocation]
    rw [if_neg hs]
    exact ⟨rfl, rfl⟩
  · intro elapsed today
    exact ⟨rfl, rfl⟩

/-- The document of the concrete scenario: a python buffer. -/
def pyDoc : DocumentInfo := { languageId := "python", fileName := "main.py" }

/-- Witness for C6 at the fresh provider: the second trigger fired
while the guard is held bounces with an empty result and an untouched
state, and the successful resume of the first invocation releases the
guard with exactly one counted completion. -/
theorem c6_witness :
    beginInvocation { initialProviderState with isProcessing := true }
        true ctxA pyDoc id =
      ({ initialProviderState with isProcessing := true }, .done [])
    ∧ (resumeInvocation { initialProviderState with isProcessing := true }
        (enhanceContextWithLanguageInfo ctxA pyDoc)
        (generateContextHash id (enhanceContextWithLanguageInfo ctxA pyDoc))
        (.response demoResp) 42 "2026-02-03").1.isProcessing = false
    ∧ (resumeInvocation { initialProviderState with isProcessing := true }
        (enhanceContextWithLanguageInfo ctxA pyDoc)
        (generateContextHash id (enhanceContextWithLanguageInfo ctxA pyDoc))
        (.response demoResp) 42 "2026-02-03").1.statsMgr.stats.totalRequests =
      initialProviderState.statsMgr.stats.totalRequests + 1 := by
  have h := c6_single_flight initialProviderState ctxA pyDoc id rfl (by decide) rfl
  exact ⟨h.2.1 { initialProviderState with isProcessing := true } true ctxA pyDoc id rfl,
         (h.2.2.1 demoResp 42 "2026-02-03" rfl).1,
         (h.2.2.1 demoResp 42 "2026-02-03" rfl).2⟩

/-! ## Claim C7: repeated context is served from the cache

The cache-hit path (completion_provider.ts lines 222-227) records a
cache-hit statistic and converts the cached suggestions without
dispatching.  It does not touch the cached response, so the served
response's metadata.cacheHit keeps whatever value the original reply
carried; the provider never sets it to true. -/

/-- The cache-hit behavior: with the guard free, a supported language
and a cached successful response under the context hash, the trigger
finishes synchronously (no dispatch, hence no network call), records a
cache-hit statistic, leaves the cache untouched, and returns the
conversion of the cached suggestions; the cached response itself,
metadata included, is returned exactly as stored. -/
theorem c7_amended_cache_hit (s : ProviderState) (rawCtx : CodeContext)
    (doc : DocumentInfo) (md5 : String → String) (resp : SuggestionResponse)
    (hidle : s.isProcessing = false)
    (hlang : isLanguageSupported
      (enhanceContextWithLanguageInfo rawCtx doc).language = true)
    (hcached : mapGet (generateContextHash md5
      (enhanceContextWithLanguageInfo rawCtx doc)) s.cache = some resp)
    (hsucc : resp.status = "success") :
    beginInvocation s true rawCtx doc md5 =
      ({ s with statsMgr := recordCacheHit s.statsMgr },
       .done (convertToCompletionItems resp.suggestions
         (enhanceContextWithLanguageInfo rawCtx doc))) := by
  obtain ⟨sc, sp, sm⟩ := s
  simp only at hidle
  subst hidle
  simp only at hcached
  simp [beginInvocation, hlang, hcached, hsucc, recordCacheHit]

/-- The suggestion of the concrete Scenario A run. -/
def sugg1 : Suggestion :=
  { text := "return n * fibonacci(n - 1)", confidence := mkRat 92 100,
    type := "single-line", description := none, cursorOffset := 0,
    replaceRange := none, languageSpecific := some true,
    formattingApplied := none }

/-- The context the provider actually hashes in the concrete scenario. -/
def enhancedCtxA : CodeContext := enhanceContextWithLanguageInfo ctxA pyDoc

/-- Its cache key (with the identity in place of the MD5 digest). -/
def ctxHashA : String := generateContextHash id enhancedCtxA

/-- The first dispatch's reply: one suggestion, successful, and the
backend cacheHit flag false (a fresh backend computation). -/
def freshResp : SuggestionResponse :=
  { suggestions := [sugg1]
    metadata :=
      { processingTimeMs := 42, modelVersion := "v1", cacheHit := false,
        contextHash := "", languageDetected := some "python",
        configUsed := none, modelType := none }
    status := "success"
    errorMessage := none }

/-- The provider after the first invocation of Scenario A completed
successfully: the response is cached under the context hash. -/
def afterFirst : ProviderState :=
  (resumeInvocation { initialProviderState with isProcessing := true }
    enhancedCtxA ctxHashA (.response freshResp) 42 "2026-02-03").1

/-- Witness for the amended C7 at the concrete Scenario A state. -/
theorem c7_witness :
    beginInvocation afterFirst true ctxA pyDoc id =
      ({ afterFirst with statsMgr := recordCacheHit afterFirst.statsMgr },
       .done (convertToCompletionItems freshResp.suggestions enhancedCtxA)) :=
  c7_amended_cache_hit afterFirst ctxA pyDoc id freshResp rfl (by decide)
    (by decide) rfl

/-- Counterexample to C7 as stated: in the concrete Scenario A run the
second trigger is served from the cache (converted cached suggestions,
a recorded cache-hit statistic, no dispatch), yet the served response
is the stored one and its metadata.cacheHit is false, not true. -/
theorem c7_counterexample :
    (beginInvocation afterFirst true ctxA pyDoc id).2 =
      BeginResult.done (convertToCompletionItems freshResp.suggestions enhancedCtxA)
    ∧ (beginInvocation afterFirst true ctxA pyDoc id).1.statsMgr.stats.cacheHits =
        afterFirst.statsMgr.stats.cacheHits + 1
    ∧ mapGet ctxHashA afterFirst.cache = some freshResp
    ∧ ¬ freshResp.metadata.cacheHit = true := by
  refine ⟨?_, ?_, ?_, ?_⟩
  · decide
  · decide
  · decide
  · decide

/-! ## Ordering lemmas for the sortText comparison -/

theorem strLtB_irrefl (a : List Char) : strLtB a a = false := by
  induction a with
  | nil => rfl
  | cons c as ih => simp [strLtB, lt_irrefl, ih]

theorem strLtB_trans : ∀ {a b c : List Char},
    strLtB a b = true → strLtB b c = true → strLtB a c = true := by
  intro a
  induction a with
  | nil =>
    intro b c hab hbc
    cases c with
    | nil =>
      cases b with
      | nil => simp [strLtB] at hab
      | cons y bs => simp [strLtB] at hbc
    | cons z cs => rfl
  | cons x as ih =>
    intro b c hab hbc
    cases b with
    | nil => simp [strLtB] at hab
    | cons y bs =>
      cases c with
      | nil => simp [strLtB] at hbc
      | cons z cs =>
        simp only [strLtB] at hab hbc ⊢
        by_cases hxy : x < y
        · by_cases hyz : y < z
          · rw [if_pos (lt_trans hxy hyz)]
          · by_cases hzy : z < y
            · rw [if_neg hyz, if_pos hzy] at hbc
              exact absurd hbc (by simp)
            · have hyzeq : y = z := le_antisymm (not_lt.mp hzy) (not_lt.mp hyz)
              subst hyzeq
              rw [if_pos hxy]
        · by_cases hyx : y < x
          · rw [if_neg hxy, if_pos hyx] at hab
            exact absurd hab (by simp)
          · have hxyeq : x = y := le_antisymm (not_lt.mp hyx) (not_lt.mp hxy)
            subst hxyeq
            rw [if_neg hxy, if_neg hyx] at hab
            by_cases hxz : x < z
            · rw [if_pos hxz]
            · by_cases hzx : z < x
              · rw [if_neg hxz, if_pos hzx] at hbc
                exact absurd hbc (by simp)
              · have hxzeq : x = z := le_antisymm (not_lt.mp hzx) (not_lt.mp hxz)
                subst hxzeq
                rw [if_neg hxz, if_neg hzx] at hbc
                rw [if_neg hxz, if_neg hzx]
                exact ih hab hbc

theorem strLtB_eq_of_not_lt : ∀ {a b : List Char},
    strLtB a b = false → strLtB b a = false → a = b := by
  intro a
  induction a with
  | nil =>
    intro b h1 _
    cases b with
    | nil => rfl
    | cons y bs => simp [strLtB] at h1
  | cons x as ih =>
    intro b h1 h2
    cases b with
    | nil => simp [strLtB] at h2
    | cons y bs =>
      simp only [strLtB] at h1 h2
      by_cases hxy : x < y
      · rw [if_pos hxy] at h1
        exact absurd h1 (by simp)
      · by_cases hyx : y < x
        · rw [if_pos hyx] at h2
          exact absurd h2 (by simp)
        · have hxyeq : x = y := le_antisymm (not_lt.mp hyx) (not_lt.mp hxy)
          subst hxyeq
          rw [if_neg hxy, if_neg hyx] at h1
          rw [if_neg hyx, if_neg hxy] at h2
          rw [ih h1 h2]

instance : IsTotal (Nat × CompletionItem) itemLe :=
  ⟨by
    intro a b
    by_cases h1 : strLtB a.2.sortText.data b.2.sortText.data = true
    · exact Or.inl (Or.inl h1)
    · by_cases h2 : strLtB b.2.sortText.data a.2.sortText.data = true
      · exact Or.inr (Or.inl h2)
      · have heq := strLtB_eq_of_not_lt
          (Bool.not_eq_true _ ▸ h1) (Bool.not_eq_true _ ▸ h2)
        rcases Nat.le_total a.1 b.1 with h | h
        · exact Or.inl (Or.inr ⟨heq, h⟩)
        · exact Or.inr (Or.inr ⟨heq.symm, h⟩)⟩

instance : IsTrans (Nat × CompletionItem) itemLe :=
  ⟨by
    intro a b c hab hbc
    rcases hab with h1 | ⟨he1, hle1⟩
    · rcases hbc with h2 | ⟨he2, _⟩
      · exact Or.inl (strLtB_trans h1 h2)
      · exact Or.inl (by rw [← he2]; exact h1)
    · rcases hbc with h2 | ⟨he2, hle2⟩
      · exact Or.inl (by rw [he1]; exact h2)
      · exact Or.inr ⟨he1.trans he2, le_trans hle1 hle2⟩⟩

/-! ## Decimal rendering lemmas

String(sortValue).padStart(4, 0) is characterized digit by digit for
the values that occur, and shown monotone on nonnegative values. -/

theorem natDigits_fuel_eq : ∀ (f₁ : Nat), ∀ (f₂ n : Nat), 0 < f₁ → 0 < f₂ →
    n < 10 ^ f₁ → n < 10 ^ f₂ → natDigits f₁ n = natDigits f₂ n := by
  intro f₁
  induction f₁ with
  | zero => intro f₂ n h1 _ _ _; omega
  | succ g₁ ih =>
    intro f₂ n _ h2 hb1 hb2
    cases f₂ with
    | zero => omega
    | succ g₂ =>
      by_cases hsmall : n < 10
      · simp [natDigits, hsmall]
      · simp only [natDigits, if_neg hsmall]
        have hg₁ : 0 < g₁ := by
          rcases Nat.eq_zero_or_pos g₁ with h | h
          · subst h; simp at hb1; omega
          · exact h
        have hg₂ : 0 < g₂ := by
          rcases Nat.eq_zero_or_pos g₂ with h | h
          · subst h; simp at hb2; omega
          · exact h
        have hd1 : n / 10 < 10 ^ g₁ := by
          rw [Nat.div_lt_iff_lt_mul (by norm_num)]
          calc n < 10 ^ (g₁ + 1) := hb1
          _ = 10 ^ g₁ * 10 := by ring
        have hd2 : n / 10 < 10 ^ g₂ := by
          rw [Nat.div_lt_iff_lt_mul (by norm_num)]
          calc n < 10 ^ (g₂ + 1) := hb2
          _ = 10 ^ g₂ * 10 := by ring
        rw [ih g₂ (n / 10) hg₁ hg₂ hd1 hd2]

/-- The four padded digit characters of a value below 10000. -/
def digs4 (n : Nat) : List Char :=
  [dc (n / 1000), dc (n / 100 % 10), dc (n / 10 % 10), dc (n % 10)]

theorem padStart4_natDigits_four (n : Nat) (h : n < 10000) :
    padStart4 (natDigits 4 n) = digs4 n := by
  rcases Nat.lt_or_ge n 10 with h1 | h1
  · have hdig : natDigits 4 n = [dc n] := by simp [natDigits, h1]
    rw [hdig]
    have e1 : n / 1000 = 0 := by omega
    have e2 : n / 100 % 10 = 0 := by omega
    have e3 : n / 10 % 10 = 0 := by omega
    have e4 : n % 10 = n := by omega
    show ['0', '0', '0', dc n] = digs4 n
    unfold digs4
    rw [e1, e2, e3, e4]
    rfl
  · rcases Nat.lt_or_ge n 100 with h2 | h2
    · have c1 : ¬ n < 10 := by omega
      have c2 : n / 10 < 10 := by omega
      have hdig : natDigits 4 n = [dc (n / 10), dc (n % 10)] := by
        simp [natDigits, c1, c2]
      rw [hdig]
      have e1 : n / 1000 = 0 := by omega
      have e2 : n / 100 % 10 = 0 := by omega
      have e3 : n / 10 % 10 = n / 10 := by omega
      show ['0', '0', dc (n / 10), dc (n % 10)] = digs4 n
      unfold digs4
      rw [e1, e2, e3]
      rfl
    · rcases Nat.lt_or_ge n 1000 with h3 | h3
      · have c1 : ¬ n < 10 := by omega
        have c2 : ¬ n / 10 < 10 := by omega
        have c3 : n / 10 / 10 < 10 := by omega
        have hdig : natDigits 4 n =
            [dc (n / 10 / 10), dc (n / 10 % 10), dc (n % 10)] := by
          simp [natDigits, c1, c2, c3]
        rw [hdig]
        have e0 : n / 10 / 10 = n / 100 := by omega
        have e1 : n / 1000 = 0 := by omega
        have e2 : n / 100 % 10 = n / 100 := by omega
        rw [e0]
        show ['0', dc (n / 100), dc (n / 10 % 10), dc (n % 10)] = digs4 n
        unfold digs4
        rw [e1, e2]
        rfl
      · have c1 : ¬ n < 10 := by omega
        have c2 : ¬ n / 10 < 10 := by omega
        have c3 : ¬ n / 10 / 10 < 10 := by omega
        have c4 : n / 10 / 10 / 10 < 10 := by omega
        have hdig : natDigits 4 n =
            [dc (n / 10 / 10 / 10), dc (n / 10 / 10 % 10), dc (n / 10 % 10),
             dc (n % 10)] := by
          simp [natDigits, c1, c2, c3, c4]
        rw [hdig]
        have e0 : n / 10 / 10 / 10 = n / 1000 := by omega
        have e1 : n / 10 / 10 % 10 = n / 100 % 10 := by omega
        rw [e0, e1]
        show [dc (n / 1000), dc (n / 100 % 10), dc (n / 10 % 10), dc (n % 10)] = digs4 n
        rfl

theorem padStart4_intStr_nonneg (v : Int) (h0 : 0 ≤ v) (h1 : v < 10000) :
    padStart4 (intStr v) = digs4 v.toNat := by
  unfold intStr
  rw [if_neg (not_lt.mpr h0)]
  have hfuel : natDigits (v.toNat + 1) v.toNat = natDigits 4 v.toNat := by
    refine natDigits_fuel_eq (v.toNat + 1) 4 v.toNat (by omega) (by omega) ?_ ?_
    · calc v.toNat < 10 ^ v.toNat := Nat.lt_pow_self (by norm_num) v.toNat
      _ ≤ 10 ^ (v.toNat + 1) := Nat.pow_le_pow_right (by norm_num) (by omega)
    · show v.toNat < 10000
      omega
  rw [hfuel, padStart4_natDigits_four v.toNat (by omega)]

theorem dc_lt_dc {x y : Nat} (hx : x < 10) (hy : y < 10) (h : x < y) :
    dc x < dc y := by
  have hall : ∀ x, x < 10 → ∀ y, y < 10 → x < y → dc x < dc y := by decide
  exact hall x hx y hy h

theorem digs4_strLtB {a b : Nat} (hab : a < b) (hb : b < 10000) :
    strLtB (digs4 a) (digs4 b) = true := by
  simp only [digs4, strLtB]
  rcases Nat.lt_trichotomy (a / 1000) (b / 1000) with h3 | h3 | h3
  · rw [if_pos (dc_lt_dc (by omega) (by omega) h3)]
  · rw [h3, if_neg (lt_irrefl _), if_neg (lt_irrefl _)]
    rcases Nat.lt_trichotomy (a / 100 % 10) (b / 100 % 10) with h2 | h2 | h2
    · rw [if_pos (dc_lt_dc (by omega) (by omega) h2)]
    · rw [h2, if_neg (lt_irrefl _), if_neg (lt_irrefl _)]
      rcases Nat.lt_trichotomy (a / 10 % 10) (b / 10 % 10) with h1 | h1 | h1
      · rw [if_pos (dc_lt_dc (by omega) (by omega) h1)]
      · rw [h1, if_neg (lt_irrefl _), if_neg (lt_irrefl _)]
        have h0 : a % 10 < b % 10 := by omega
        rw [if_pos (dc_lt_dc (by omega) (by omega) h0)]
      · exfalso; omega
    · exfalso; omega
  · exfalso
    have := Nat.div_le_div_right (c := 1000) (le_of_lt hab)
    omega

/-- Lexicographic sortText order agrees with ascending numeric sort
value throughout the nonnegative range reached by the provider. -/
theorem sortText_lt_of_value_lt {v w : Int} (h0 : 0 ≤ v) (hvw : v < w)
    (hw : w ≤ 1000) :
    strLtB (padStart4 (intStr v)) (padStart4 (intStr w)) = true := by
  rw [padStart4_intStr_nonneg v h0 (by omega),
    padStart4_intStr_nonneg w (by omega) (by omega)]
  exact digs4_strLtB (by omega) (by omega)

/-! ### Bounds of the rounded confidence -/

theorem jsRoundMul999_nonneg (c : ℚ) (h : 0 ≤ c) : 0 ≤ jsRoundMul c 999 := by
  unfold jsRoundMul
  have hn : 0 ≤ c.num := Rat.num_nonneg.mpr h
  have hd : (0 : ℤ) ≤ (c.den : ℤ) := Int.natCast_nonneg c.den
  exact Int.ediv_nonneg (by omega) (by omega)

theorem jsRoundMul999_le (c : ℚ) (h : c ≤ 1) : jsRoundMul c 999 ≤ 999 := by
  unfold jsRoundMul
  have hd : (0 : ℤ) < (c.den : ℤ) := by exact_mod_cast c.den_pos
  have hnum : c.num ≤ (c.den : ℤ) := by
    have hle := Rat.le_def.mp h
    simpa using hle
  have hmul : 1998 * c.num ≤ 1998 * (c.den : ℤ) :=
    mul_le_mul_of_nonneg_left hnum (by norm_num)
  calc (2 * (999 : ℤ) * c.num + (c.den : ℤ)) / (2 * (c.den : ℤ))
      ≤ (1999 * (c.den : ℤ)) / (2 * (c.den : ℤ)) :=
        Int.ediv_le_ediv (by omega) (by omega)
    _ = 999 := by
        rw [mul_comm (1999 : ℤ) _, mul_comm (2 : ℤ) _,
          Int.mul_ediv_mul_of_pos _ _ hd]
        decide

/-- The bonus is 0 or 100 and nonnegative. -/
theorem priorityBonus_cases (s : Suggestion) :
    priorityBonus s = 100 ∨ priorityBonus s = 0 := by
  unfold priorityBonus
  split
  · exact Or.inl rfl
  · exact Or.inr rfl

/-- At equal rounded confidence the language-specific sortText,
rendered with the 100 bonus, orders strictly before the non-specific
one, for every rounded confidence in range — including the negative
sort values whose rendering starts with the minus sign. -/
theorem specific_first_all_r : ∀ r : Nat, r < 1000 →
    strLtB (padStart4 (intStr (900 - (r : Int))))
      (padStart4 (intStr (1000 - (r : Int)))) = true := by decide

/-! ## Claim C8: the induced completion-item order -/

/-- C8 (amended).  The displayed arrangement is the response-tagged
item list sorted under the total order sortText-then-response-index: a
permutation of the items, sorted, hence a stable total order with ties
broken by original response order; ranking is a pure function, so
repeated ranking of the same input yields the identical order.  For
suggestions with equal bonus whose sort values are nonnegative, the
sortText order is descending rounded confidence; at equal rounded
confidence a language-specific suggestion orders strictly before a
non-specific one at every confidence in the unit interval.  (As the
counterexample shows, descending confidence fails among language-
specific suggestions whose sort value is negative, where the rendered
string starts with the minus sign; the claim is amended to the
nonnegative region.) -/
theorem c8_amended (suggestions : List Suggestion) (context : CodeContext)
    (s t : Suggestion)
    (hs0 : 0 ≤ s.confidence) (hs1 : s.confidence ≤ 1)
    (ht0 : 0 ≤ t.confidence) (_ht1 : t.confidence ≤ 1) :
    (rankedPairs (convertToCompletionItems suggestions context)).Perm
        (convertToCompletionItems suggestions context).enum
    ∧ List.Sorted itemLe (rankedPairs (convertToCompletionItems suggestions context))
    ∧ (priorityBonus s = priorityBonus t → 0 ≤ sortValue s → 0 ≤ sortValue t →
        jsRoundMul t.confidence 999 < jsRoundMul s.confidence 999 →
        strLtB (sortTextChars s) (sortTextChars t) = true)
    ∧ (jsRoundMul s.confidence 999 = jsRoundMul t.confidence 999 →
        s.languageSpecific = some true → ¬ t.languageSpecific = some true →
        strLtB (sortTextChars s) (sortTextChars t) = true) := by
  refine ⟨List.perm_insertionSort itemLe _, List.sorted_insertionSort itemLe _,
    ?_, ?_⟩
  · intro hbonus hvs hvt hround
    have hvw : sortValue s < sortValue t := by
      unfold sortValue
      omega
    have hwle : sortValue t ≤ 1000 := by
      have hr := jsRoundMul999_nonneg t.confidence ht0
      rcases priorityBonus_cases t with hb | hb <;>
        · unfold sortValue
          omega
    exact sortText_lt_of_value_lt hvs hvw hwle
  · intro hround hspec hnspec
    have hbs : priorityBonus s = 100 := by
      unfold priorityBonus
      rw [if_pos hspec]
    have hbt : priorityBonus t = 0 := by
      unfold priorityBonus
      rw [if_neg hnspec]
    have h0r : 0 ≤ jsRoundMul s.confidence 999 :=
      jsRoundMul999_nonneg s.confidence hs0
    have h1r : jsRoundMul s.confidence 999 ≤ 999 :=
      jsRoundMul999_le s.confidence hs1
    have hrn : ((jsRoundMul s.confidence 999).toNat : Int) =
        jsRoundMul s.confidence 999 := Int.toNat_of_nonneg h0r
    have hvs : sortValue s = 900 - ((jsRoundMul s.confidence 999).toNat : Int) := by
      unfold sortValue
      omega
    have hvt : sortValue t = 1000 - ((jsRoundMul s.confidence 999).toNat : Int) := by
      unfold sortValue
      omega
    unfold sortTextChars
    rw [hvs, hvt]
    exact specific_first_all_r (jsRoundMul s.confidence 999).toNat (by omega)

/-- A language-specific full-confidence suggestion (sort value -99,
rendered 0-99). -/
def suggHigh : Suggestion :=
  { text := "high", confidence := 1, type := "single-line", description := none,
    cursorOffset := 0, replaceRange := none, languageSpecific := some true,
    formattingApplied := none }

/-- A language-specific 0.95-confidence suggestion (sort value -49,
rendered 0-49). -/
def suggLow : Suggestion :=
  { suggHigh with text := "low", confidence := mkRat 19 20 }

/-- Counterexample to C8 as stated: two language-specific suggestions,
confidences 1 and 0.95 — the displayed arrangement puts the
lower-confidence one first (response positions come back reversed),
because the negative sort values render as 0-99 and 0-49 and compare
as strings.  Descending confidence is violated at equal flags. -/
theorem c8_counterexample :
    suggLow.confidence < suggHigh.confidence
    ∧ suggLow.languageSpecific = suggHigh.languageSpecific
    ∧ (rankedPairs (convertToCompletionItems [suggHigh, suggLow] ctxA)).map
        Prod.fst = [1, 0] := by
  refine ⟨?_, rfl, ?_⟩
  · show (mkRat 19 20 : ℚ) < 1
    rw [Rat.lt_def]
    decide
  · decide

/-- A language-specific suggestion at confidence one half. -/
def suggSpecHalf : Suggestion :=
  { suggHigh with text := "spec", confidence := mkRat 1 2 }

/-- A non-specific suggestion at confidence one half. -/
def suggNonHalf : Suggestion :=
  { suggHigh with text := "non", confidence := mkRat 1 2, languageSpecific := none }

/-- Witness for the amended C8: at equal confidence one half, the
language-specific suggestion's sortText orders before the non-specific
one's, and the two-item ranking facts hold at a concrete list. -/
theorem c8_witness :
    strLtB (sortTextChars suggSpecHalf) (sortTextChars suggNonHalf) = true :=
  (c8_amended [] ctxA suggSpecHalf suggNonHalf
    (by rw [Rat.le_def]; decide) (by rw [Rat.le_def]; decide)
    (by rw [Rat.le_def]; decide) (by rw [Rat.le_def]; decide)).2.2.2
    rfl rfl (by decide)
